import Mathlib

/-!
Shallow embedding of the `vtk-prompt` CLI/UI toolkit (files
`src/vtk_prompt/prompt.py`, `src/vtk_prompt/vtk_prompt_ui.py` and
`src/vtk_prompt/yaml_prompt_loader.py`) together with proofs about its
prompt construction, RAG dispatch, code execution and template
substitution logic.

Python strings are modelled as `List Char`.  External effects (the
Anthropic/OpenAI HTTP clients, the chromadb vector database, `exec()`,
the filesystem read of `data/examples/index.json`) are modelled by an
oracle record `World`; the functions under study are pure functions of
that oracle which additionally return the trace of observable events
(database lookups, API calls with the exact prompt context, `exec`
invocations, prints).
-/

namespace VtkPrompt

/-- Python strings are lists of characters. -/
abbrev Str := List Char

/-! ## Core string primitives

`isPre`, `firstOcc`, `replaceAll` model Python's `str.startswith` (at a
position), `str.find` and `str.replace` respectively. -/

/-- Predicate `isPre p s` tests whether `p` is a prefix of `s`. -/
def isPre : Str → Str → Bool
  | [], _ => true
  | _ :: _, [] => false
  | a :: p, b :: s => a = b && isPre p s

/-- Index of the first occurrence of `pat` in `s` (Python `s.find(pat)`;
`none` models the `-1` result). -/
def firstOcc (pat : Str) : Str → Option Nat
  | [] => if isPre pat [] then some 0 else none
  | c :: cs =>
    if isPre pat (c :: cs) then some 0
    else (firstOcc pat cs).map (· + 1)

/-- Whether `pat` occurs in `s` (Python `pat in s`). -/
def hasOccur (pat s : Str) : Bool := (firstOcc pat s).isSome

/-- Python `s.replace(pat, rep)` for a non-empty `pat`: replace every
occurrence, left to right, non-overlapping, never rescanning `rep`.
(For empty `pat` this copies `s`; all patterns used here are non-empty.) -/
def replaceAll (pat rep : Str) : Str → Str
  | [] => []
  | c :: cs =>
    if h : isPre pat (c :: cs) ∧ pat ≠ [] then
      rep ++ replaceAll pat rep ((c :: cs).drop pat.length)
    else
      c :: replaceAll pat rep cs
termination_by s => s.length
decreasing_by
  · simp only [List.length_drop, List.length_cons]
    have hp : pat.length ≠ 0 := fun hz => h.2 (List.eq_nil_of_length_eq_zero hz)
    omega
  · simp

/-- Python `sep.join(xs)`. -/
def joinSep (sep : Str) : List Str → Str
  | [] => []
  | [x] => x
  | x :: y :: xs => x ++ sep ++ joinSep sep (y :: xs)

/-! ## Model of `src/vtk_prompt/prompt.py`

External effects (HTTP clients, chromadb, `exec`, reading
`data/examples/index.json`) are collected in an oracle record `World`;
each modelled function returns the trace of its observable events. -/

def PYTHON_VERSION : String := ">=3.10"

def VTK_VERSION : String := "9.3"

/-- The `[DESCRIPTION]` placeholder of the base template. -/
def descPat : Str := "[DESCRIPTION]".data

/-- The `[LIST_VTK_CLASSES]` placeholder of the base template. -/
def listPat : Str := "[LIST_VTK_CLASSES]".data

/-- Text of `CONTEXT` up to (excluding) its single `[DESCRIPTION]` occurrence. -/
def ctxPre : Str := ("\nWrite only python source code that uses VTK.\n\n<instructions>\n- DO NOT READ OUTSIDE DATA\n- DO NOT DEFINE FUNCTIONS\n- NO TEXT, ONLY SOURCE CODE\n- ONLY import VTK and numpy if needed\n- Only use VTK " ++ VTK_VERSION ++ " basic components.\n- Only use python " ++ PYTHON_VERSION ++ " or above python.\n- If declared, use the vtkclass tool once if needed\n</instructions>\n\n<output>\n- Only output verbatin python code.\n- Only VTK library\n- No explanations\n- No ```python marker.\n</output>\n\n<vtkclasses_available>\n[LIST_VTK_CLASSES]\n</vtkclasses_available>\n\n<example>\ninput: Only create a vtkShpere\noutput: sphere = vtk.vtkSphereSource()\n</example>\n\nRequest:\n").data

/-- What follows `[DESCRIPTION]` in `CONTEXT`. -/
def ctxPost : Str := "\n\n".data

/-- The base prompt template `CONTEXT` of `prompt.py` (lines 14-46), an
f-string over `VTK_VERSION` and `PYTHON_VERSION`. -/
def CONTEXT : Str := ctxPre ++ (descPat ++ ctxPost)

inductive Provider
  | anthropic
  | openai
  | nim
deriving DecidableEq

/-- Python exceptions (`Exception` subclasses) are modelled by their
message; `Except PyErr α` models a computation that may raise. -/
abbrev PyErr := Str

/-- Result record of `query_db.query_db` (the chromadb wrapper library). -/
structure QueryResult where
  code_documents : List Str
  text_documents : List Str
  code_metadata : List Str
deriving DecidableEq

/-- Dictionary returned by `get_rag_snippets` on success. -/
structure RagSnippets where
  code_snippets : List Str
  text_snippets : List Str
  code_metadata : List Str
deriving DecidableEq

/-- RAG options (`--collection`, `--database`, `--top-k`). -/
structure RagParams where
  collection : Str
  database : Str
  top_k : Nat
deriving DecidableEq

/-- Oracle for every external effect reachable from `prompt.py`:
`ragAvailable` is `check_rag_components_available()`, `dbInit`/`dbQuery`
are `query_db.initialize_db`/`query_db.query_db` (a client is an opaque
handle), `indexClasses` is the key list of `data/examples/index.json`,
`anthropicText`/`openaiText` give the response text for a given
user-message content, and `execResult` is the outcome of `exec`. -/
structure World where
  ragAvailable : Bool
  dbInit : Str → Except PyErr Nat
  dbQuery : Nat → Str → Str → Nat → Except PyErr QueryResult
  indexClasses : List Str
  anthropicText : Str → Str
  openaiText : Str → Str
  execResult : Str → Except PyErr Unit

/-- Observable effects of one CLI run. -/
inductive Event
  | ragLookup (params : RagParams) (query : Str)
  | anthropicApi (context : Str)
  | openaiApi (context : Str) (baseUrl : Option Str)
  | execEv (segment : Str)
  | printEv (s : Str)
deriving DecidableEq

/-- Model of `get_rag_snippets` (lines 100-114): thin wrapper over the
vector-database library; an exception raised by `initialize_db` or
`query_db` is caught (and printed) and turned into `None`. -/
def get_rag_snippets (w : World) (query : Str) (params : RagParams) :
    Option RagSnippets :=
  match (w.dbInit params.database).bind
      (fun client => w.dbQuery client query params.collection params.top_k) with
  | .ok results =>
    some ⟨results.code_documents, results.text_documents, results.code_metadata⟩
  | .error _ => none

/-- Defaults of `get_rag_snippets`' keyword parameters. -/
def defaultRagParams : RagParams :=
  ⟨"vtk-examples".data, "./db/codesage-codesage-large-v2".data, 5⟩

/-- Two newlines, the separator the queries use to join RAG snippets. -/
def nlnl : Str := "\n\n".data

/-- Space-joined key list of `data/examples/index.json`. -/
def classList (w : World) : Str := joinSep " ".data w.indexClasses

/-- Enhanced-context f-string of `anthropic_query_with_rag_snippets`
(lines 234-260) and `openai_query_with_rag_snippets` (lines 343-369) —
the two f-strings are textually identical — up to `<vtk_examples>`. -/
def ehPre : Str := ("\nWrite only python source code that uses VTK.\n\n<instructions>\n- DO NOT READ OUTSIDE DATA\n- DO NOT DEFINE FUNCTIONS\n- NO TEXT, ONLY SOURCE CODE\n- ONLY import VTK and numpy if needed\n- Only use VTK " ++ VTK_VERSION ++ " basic components.\n- Only use python " ++ PYTHON_VERSION ++ " or above python.\n- Use the example code snippets below for reference\n</instructions>\n\n<vtk_examples>\n").data

/-- The enhanced-context text between the snippets and the request. -/
def ehMid : Str := "\n</vtk_examples>\n\n<output>\n- Only output verbatin python code.\n- Only VTK library\n- No explanations\n- No ```python marker.\n</output>\n\nRequest:\n".data

/-- The `enhanced_context` f-string with the snippets and the user message
interpolated. -/
def enhancedContext (message context_snippets : Str) : Str :=
  ehPre ++ context_snippets ++ ehMid ++ message ++ "\n".data

/-- Model of `anthropic_query_with_rag_snippets` (lines 231-271): one API call with
the enhanced context; the response text comes from the oracle. -/
def anthropic_query_with_rag_snippets (w : World) (message context_snippets : Str) :
    List Event × Str :=
  ([Event.anthropicApi (enhancedContext message context_snippets)],
    w.anthropicText (enhancedContext message context_snippets))

/-- Model of `openai_query_with_rag_snippets` (lines 340-385). -/
def openai_query_with_rag_snippets (w : World) (message context_snippets : Str)
    (base_url : Option Str) : List Event × Str :=
  ([Event.openaiApi (enhancedContext message context_snippets) base_url],
    w.openaiText (enhancedContext message context_snippets))

/-- Model of `anthropic_query` (lines 130-228).  Context construction and the RAG
branches are modelled exactly; the HTTP round trips (`count_tokens`,
`messages.create`, the tool-use follow-up) are folded into the
`anthropicText` oracle since the response text is unconstrained. -/
def anthropic_query (w : World) (message : Str) (enable_rag : Bool) :
    List Event × Str :=
  let context := replaceAll descPat message CONTEXT
  if enable_rag then
    if w.ragAvailable then
      match get_rag_snippets w message defaultRagParams with
      | some rag_snippets =>
        let context_snippets := joinSep nlnl rag_snippets.code_snippets
        let (es, t) := anthropic_query_with_rag_snippets w message context_snippets
        (Event.ragLookup defaultRagParams message :: es, t)
      | none =>
        let context := replaceAll listPat (classList w) context
        (Event.ragLookup defaultRagParams message :: [Event.anthropicApi context],
          w.anthropicText context)
    else
      let context := replaceAll listPat (classList w) context
      ([Event.anthropicApi context], w.anthropicText context)
  else
    ([Event.anthropicApi context], w.anthropicText context)

/-- Model of `openai_query` (lines 274-337), same shape as `anthropic_query` with
the OpenAI-compatible client and an optional base URL. -/
def openai_query (w : World) (message : Str) (enable_rag : Bool)
    (base_url : Option Str) : List Event × Str :=
  let context := replaceAll descPat message CONTEXT
  if enable_rag then
    if w.ragAvailable then
      match get_rag_snippets w message defaultRagParams with
      | some rag_snippets =>
        let context_snippets := joinSep nlnl rag_snippets.code_snippets
        let (es, t) := openai_query_with_rag_snippets w message context_snippets base_url
        (Event.ragLookup defaultRagParams message :: es, t)
      | none =>
        let context := replaceAll listPat (classList w) context
        (Event.ragLookup defaultRagParams message :: [Event.openaiApi context base_url],
          w.openaiText context)
    else
      let context := replaceAll listPat (classList w) context
      ([Event.openaiApi context base_url], w.openaiText context)
  else
    ([Event.openaiApi context base_url], w.openaiText context)

/-- The `"import vtk"` substring searched by `run_code`. -/
def importPat : Str := "import vtk".data

/-- The `"import vtk\n"` line prepended by `run_code`. -/
def importLine : Str := ("import vtk\n").data

/-- The string `run_code` passes to `exec` (lines 391-395): drop
everything before the first occurrence of `"import vtk"` (Python `find`
returning `-1` is `none` and keeps the whole string), then prepend the
line `"import vtk\n"`. -/
def codeSegment (code_string : Str) : Str :=
  let trimmed := match firstOcc importPat code_string with
    | some pos => code_string.drop pos
    | none => code_string
  importLine ++ trimmed

/-- Error message printed by `run_code` on an exception from `exec`. -/
def runCodeErr (e : PyErr) : Str := "Error executing code: ".data ++ e

/-- Model of `run_code` (lines 388-404).  The second component is the exception
propagated out of the function; the `try/except Exception` around `exec`
makes it `none` in both branches (the Python return value is `None` in
both branches as well). -/
def run_code (w : World) (code_string : Str) (verbose : Bool) :
    List Event × Option PyErr :=
  let code_segment := codeSegment code_string
  let pre := if verbose then [Event.printEv code_segment] else []
  match w.execResult code_segment with
  | .ok _ => (pre ++ [Event.execEv code_segment], none)
  | .error e =>
    (pre ++ [Event.execEv code_segment, Event.printEv (runCodeErr e)]
      ++ (if verbose then [] else [Event.printEv code_segment]), none)

/-- Validation of the provider option: argparse choices anthropic, openai,
"nim"]` with `default="anthropic"`; an invalid choice makes argparse
exit with status 2. -/
def parseProvider : Option Str → Except Nat Provider
  | none => .ok Provider.anthropic
  | some s =>
    if s = "anthropic".data then .ok Provider.anthropic
    else if s = "openai".data then .ok Provider.openai
    else if s = "nim".data then .ok Provider.nim
    else .error 2

/-- The relevant environment variables. -/
structure Env where
  anthropicApiKey : Option Str
  openaiApiKey : Option Str

/-- Token resolution (lines 459-468): `--token`, else the provider's
environment variable (`ANTHROPIC_API_KEY` for anthropic,
`OPENAI_API_KEY` for openai and nim), else print an error and
`sys.exit(1)`. -/
def resolveToken (provider : Provider) (token : Option Str) (env : Env) :
    Except Nat Str :=
  match token with
  | some t => .ok t
  | none =>
    match (match provider with
           | Provider.anthropic => env.anthropicApiKey
           | _ => env.openaiApiKey) with
    | some t => .ok t
    | none => .error 1

def nvidiaUrl : Str := "https://integrate.api.nvidia.com/v1".data

/-- Lines 471-472: NIM defaults the base URL to the NVIDIA endpoint. -/
def resolveBaseUrl (provider : Provider) (base_url : Option Str) : Option Str :=
  if provider = Provider.nim ∧ base_url = none then some nvidiaUrl else base_url

/-- Lines 475-479: model defaulting for non-anthropic providers. -/
def resolveModel (provider : Provider) (model : Str) : Str :=
  if model = "claude-3-5-haiku-20240307".data ∧ provider ≠ Provider.anthropic then
    match provider with
    | Provider.openai => "gpt-4o".data
    | Provider.nim => "meta/llama3-70b-instruct".data
    | Provider.anthropic => model
  else model

/-- The command line after argparse has filled in defaults (`model`,
`max_tokens`, `collection`, `database`, `top_k`, `rag`, `verbose`);
`provider` is kept as given, pre-validation. -/
structure RawArgs where
  input_string : Str
  provider : Option Str
  model : Str
  max_tokens : Nat
  token : Option Str
  base_url : Option Str
  rag : Bool
  verbose : Bool
  collection : Str
  database : Str
  top_k : Nat

/-- Error message printed when no API token can be resolved. -/
def tokenErrMsg (provider : Provider) : Str :=
  "Error: No API token provided for ".data ++
    (match provider with
     | Provider.anthropic => "anthropic".data
     | Provider.openai => "openai".data
     | Provider.nim => "nim".data)

/-- The provider dispatch of `parse_args` (lines 482-557): per provider,
try the RAG path when `--rag` is set and the components are available,
then fall back to the plain query functions. -/
def providerDispatch (w : World) (provider : Provider) (base_url : Option Str)
    (args : RawArgs) : List Event × Str :=
  let params : RagParams := ⟨args.collection, args.database, args.top_k⟩
  match provider with
  | Provider.anthropic =>
    if args.rag && w.ragAvailable then
      match get_rag_snippets w args.input_string params with
      | some rag_snippets =>
        let context_snippets := joinSep nlnl rag_snippets.code_snippets
        let (es, t) :=
          anthropic_query_with_rag_snippets w args.input_string context_snippets
        (Event.ragLookup params args.input_string :: es, t)
      | none =>
        let (es, t) := anthropic_query w args.input_string args.rag
        (Event.ragLookup params args.input_string :: es, t)
    else
      anthropic_query w args.input_string args.rag
  | _ =>
    if args.rag && w.ragAvailable then
      match get_rag_snippets w args.input_string params with
      | some rag_snippets =>
        let context_snippets := joinSep nlnl rag_snippets.code_snippets
        let (es, t) :=
          openai_query_with_rag_snippets w args.input_string context_snippets base_url
        (Event.ragLookup params args.input_string :: es, t)
      | none =>
        let (es, t) := openai_query w args.input_string args.rag base_url
        (Event.ragLookup params args.input_string :: es, t)
    else
      openai_query w args.input_string args.rag base_url

/-- Model of `parse_args` (lines 407-558): provider validation, token and base-URL
resolution, then the provider dispatch (lines 482-557) and the final
`run_code` (line 558).  Returns the event trace and the process outcome;
`.error c` models `sys.exit(c)`. -/
def cliRun (w : World) (env : Env) (args : RawArgs) :
    List Event × Except Nat Unit :=
  match parseProvider args.provider with
  | .error c => ([], .error c)
  | .ok provider =>
    match resolveToken provider args.token env with
    | .error c => ([Event.printEv (tokenErrMsg provider)], .error c)
    | .ok _token =>
      let base_url := resolveBaseUrl provider args.base_url
      let _model := resolveModel provider args.model
      let (queryEvents, code) := providerDispatch w provider base_url args
      let (runEvents, _) := run_code w code args.verbose
      (queryEvents ++ runEvents, .ok ())

/-- Prompt contexts sent to either vendor API in a trace. -/
def apiContexts (es : List Event) : List Str :=
  es.filterMap fun e => match e with
    | Event.anthropicApi c => some c
    | Event.openaiApi c _ => some c
    | _ => none

/-- Contexts of Anthropic API calls in a trace. -/
def anthropicContexts (es : List Event) : List Str :=
  es.filterMap fun e => match e with
    | Event.anthropicApi c => some c
    | _ => none

/-- Context/base-URL pairs of OpenAI-compatible API calls in a trace. -/
def openaiCalls (es : List Event) : List (Str × Option Str) :=
  es.filterMap fun e => match e with
    | Event.openaiApi c b => some (c, b)
    | _ => none

/-- Strings passed to `exec` in a trace. -/
def execSegments (es : List Event) : List Str :=
  es.filterMap fun e => match e with
    | Event.execEv s => some s
    | _ => none

/-- Whether an event is a vector-database lookup. -/
def isRagLookup : Event → Bool
  | Event.ragLookup _ _ => true
  | _ => false

/-! ## Model of `_execute_with_renderer` (`src/vtk_prompt/vtk_prompt_ui.py`) -/

/-- Python objects bound in the UI's execution globals. -/
inductive PyVal
  | vtkModule
  | appRenderer
deriving DecidableEq

/-- The `exec_globals` dictionary (ui lines 355-358): the `vtk` module
and the application's `vtkRenderer`. -/
def execGlobals : List (Str × PyVal) :=
  [("vtk".data, PyVal.vtkModule), ("renderer".data, PyVal.appRenderer)]

/-- Observable effects of `_execute_with_renderer`. -/
inductive UiEvent
  | removeAllViewProps
  | uiExec (segment : Str) (globals : List (Str × PyVal))
  | resetAndRender
  | printRenderErr (e : PyErr)
  | viewUpdate
deriving DecidableEq

/-- The string `_execute_with_renderer` passes to `exec` (ui lines
344-352): drop everything before the first `"import vtk"` occurrence,
then prepend `"import vtk\n"` only when `"import vtk"` does not occur in
the result. -/
def uiCodeSegment (code_string : Str) : Str :=
  let trimmed := match firstOcc importPat code_string with
    | some pos => code_string.drop pos
    | none => code_string
  if hasOccur importPat trimmed then trimmed
  else importLine ++ trimmed

/-- Model of `_execute_with_renderer` (ui lines 338-376): remove all view props
from the renderer, `exec` the cleaned code with `vtk` and `renderer`
bound in the globals, then reset the camera and refresh the view (the
inner try block is modelled by the `renderResult` oracle; on its failure
the error is printed and the view still updated).  The second component
is the `state.error_message` set by the outer `except`. -/
def execute_with_renderer (execOut : Str → List (Str × PyVal) → Except PyErr Unit)
    (renderResult : Except PyErr Unit) (code_string : Str) :
    List UiEvent × Option Str :=
  let code_segment := uiCodeSegment code_string
  match execOut code_segment execGlobals with
  | .error e =>
    ([UiEvent.removeAllViewProps, UiEvent.uiExec code_segment execGlobals],
      some ("Error executing code: ".data ++ e))
  | .ok _ =>
    match renderResult with
    | .ok _ =>
      ([UiEvent.removeAllViewProps, UiEvent.uiExec code_segment execGlobals,
        UiEvent.resetAndRender, UiEvent.viewUpdate], none)
    | .error e =>
      ([UiEvent.removeAllViewProps, UiEvent.uiExec code_segment execGlobals,
        UiEvent.printRenderErr e, UiEvent.viewUpdate], none)

/-! ## Model of `src/vtk_prompt/yaml_prompt_loader.py` -/

/-- The character `{` (written via its code point to keep template
fragments readable as plain lists). -/
def lbrace : Char := Char.ofNat 123

/-- The character `}`. -/
def rbrace : Char := Char.ofNat 125

/-- Constant `PYTHON_VERSION` of `yaml_prompt_loader.py`. -/
def yamlPythonVersion : Str := ">=3.10".data

/-- ASCII `\s` (the prompt templates only contain ASCII whitespace). -/
def isPySpace (c : Char) : Bool :=
  c = ' ' || c = '\t' || c = '\n' || c = '\r' || c = Char.ofNat 11 || c = Char.ofNat 12

/-- ASCII `\w` (the prompt templates only contain ASCII names). -/
def isPyWord (c : Char) : Bool :=
  ('a' ≤ c && c ≤ 'z') || ('A' ≤ c && c ≤ 'Z') || ('0' ≤ c && c ≤ '9') || c = '_'

/-- The literal `{{#if` opening a conditional block. -/
def condOpen : Str := [lbrace, lbrace, '#', 'i', 'f']

/-- The literal `{{/if}}` closing a conditional block. -/
def condClose : Str := [lbrace, lbrace, '/', 'i', 'f', rbrace, rbrace]

/-- The literal `}}`. -/
def braceClose : Str := [rbrace, rbrace]

/-- Placeholder of a variable: two opening braces, the name, two closing braces. -/
def mkPH (name : Str) : Str := [lbrace, lbrace] ++ name ++ [rbrace, rbrace]

/-- Python `Dict[str, str]` as an association list in insertion order;
lookups take the first binding. -/
abbrev VarMap := List (Str × Str)

/-- Merging the defaults under the caller map (lines 56-57): the two
default keys first, in insertion order, caller values overriding, then
the remaining caller keys in their order. -/
def augmentVars (vtkVer : Str) (varMap : VarMap) : VarMap :=
  [("VTK_VERSION".data, (List.lookup "VTK_VERSION".data varMap).getD vtkVer),
   ("PYTHON_VERSION".data,
     (List.lookup "PYTHON_VERSION".data varMap).getD yamlPythonVersion)]
  ++ varMap.filter
      (fun kv =>
        decide (kv.1 ≠ "VTK_VERSION".data ∧ kv.1 ≠ "PYTHON_VERSION".data))

/-- Pythonic truthiness test of line 68: bound and truthy (a
non-empty string). -/
def truthy (vars : VarMap) (name : Str) : Bool :=
  match List.lookup name vars with
  | some v => !v.isEmpty
  | none => false

/-- Attempt to match `\{\{#if\s+(\w+)\}\}(.*?)\{\{/if\}\}` (with
`re.DOTALL`) at the start of `s`: the literal `{{#if`, greedy `\s+`,
greedy `\w+`, the literal `}}`, then the lazy body running to the first
`{{/if}}`.  Returns the variable name, the body and the rest of the
string after the match. -/
def tryMatchCond (s : Str) : Option (Str × Str × Str) :=
  if isPre condOpen s then
    let s1 := s.drop condOpen.length
    let sp := s1.takeWhile isPySpace
    if sp.isEmpty then none
    else
      let s2 := s1.drop sp.length
      let w := s2.takeWhile isPyWord
      if w.isEmpty then none
      else
        let s3 := s2.drop w.length
        if isPre braceClose s3 then
          let s4 := s3.drop braceClose.length
          match firstOcc condClose s4 with
          | some i => some (w, s4.take i, s4.drop (i + condClose.length))
          | none => none
        else none
  else none

/-- Model of `handle_conditionals` (lines 59-77): `re.sub` scanning left to
right; each match is replaced by its body when the variable is bound and
truthy, by the empty string otherwise; scanning resumes after the match
and never rescans an inserted body. -/
def handleConditionals (vars : VarMap) : Str → Str
  | [] => []
  | c :: cs =>
    match h : tryMatchCond (c :: cs) with
    | some (v, body, rest) =>
      (if truthy vars v then body else []) ++ handleConditionals vars rest
    | none => c :: handleConditionals vars cs
termination_by s => s.length
decreasing_by
  · simp only [tryMatchCond] at h
    split at h
    case isFalse => exact absurd h (by simp)
    case isTrue hopen =>
      split at h
      · exact absurd h (by simp)
      · split at h
        · exact absurd h (by simp)
        · split at h
          case isFalse => exact absurd h (by simp)
          case isTrue hbc =>
            split at h
            case h_2 => exact absurd h (by simp)
            case h_1 i heq =>
              rw [Option.some.injEq, Prod.mk.injEq, Prod.mk.injEq] at h
              obtain ⟨h1, h2, h3⟩ := h
              subst h3
              have hco : condOpen.length = 5 := rfl
              simp only [List.length_drop, List.length_cons, hco]
              omega
  · simp

/-- The placeholder loop (lines 80-82): for each variable in insertion
order, replace its placeholder by the string value everywhere. -/
def applyVariables (content : Str) (vars : VarMap) : Str :=
  vars.foldl (fun acc kv => replaceAll (mkPH kv.1) kv.2 acc) content

/-- Model of `GitHubModelYAMLLoader.substitute_variables` (lines 45-84),
parameterized by `vtkVer = vtk.__version__`: augment the variables with
the defaults, resolve the conditional blocks, then substitute the
regular placeholders. -/
def substitute_variables (vtkVer : Str) (content : Str) (varMap : VarMap) : Str :=
  let vars := augmentVars vtkVer varMap
  applyVariables (handleConditionals vars content) vars

/-! Abstract template shapes used to state the semantics of the two
substitution phases. -/

/-- A template segment for the conditional phase: literal text or one
`{{#if v}}body{{/if}}` block. -/
inductive CSeg
  | lit (l : Str)
  | cond (v : Str) (body : Str)
deriving DecidableEq

def renderCSeg : CSeg → Str
  | CSeg.lit l => l
  | CSeg.cond v body => condOpen ++ ' ' :: v ++ braceClose ++ body ++ condClose

def renderCTemplate (segs : List CSeg) : Str :=
  (segs.map renderCSeg).foldr (· ++ ·) []

/-- A non-empty all-word-character name. -/
def wordy (s : Str) : Bool := !s.isEmpty && s.all isPyWord

/-- Text containing no `{`. -/
def noLb (s : Str) : Bool := s.all (fun c => c != lbrace)

/-- Well-formedness for the conditional phase: literal text and bodies
contain no `{`, condition names are non-empty words. -/
def CSegWF : CSeg → Bool
  | CSeg.lit l => noLb l
  | CSeg.cond v body => wordy v && noLb body

/-- What the claim says a conditional block becomes. -/
def resolveCSeg (vars : VarMap) : CSeg → Str
  | CSeg.lit l => l
  | CSeg.cond v body => if truthy vars v then body else []

/-- A template segment for the placeholder phase: literal text or one
`{{name}}` placeholder. -/
inductive PSeg
  | lit (l : Str)
  | ph (name : Str)
deriving DecidableEq

/-- Rendering with the variables of `applied` already substituted. -/
def renderPSeg (applied : VarMap) : PSeg → Str
  | PSeg.lit l => l
  | PSeg.ph n =>
    match List.lookup n applied with
    | some v => v
    | none => mkPH n

def renderPTemplate (applied : VarMap) (segs : List PSeg) : Str :=
  (segs.map (renderPSeg applied)).foldr (· ++ ·) []

/-- Per-segment well-formedness for the placeholder phase. -/
def PSegWF (am : VarMap) : PSeg → Bool
  | PSeg.lit l => noLb l
  | PSeg.ph n => decide (n ∈ am.map Prod.fst)

/-- Well-formedness for the placeholder phase: keys are non-empty words,
no key repeats, values and literal text contain no `{`, and every
placeholder refers to a bound variable. -/
def PhaseWF (am : VarMap) (segs : List PSeg) : Bool :=
  am.all (fun kv => wordy kv.1 && noLb kv.2)
  && decide ((am.map Prod.fst).Nodup)
  && segs.all (PSegWF am)

/-! ### Lemmas about the primitives -/

theorem isPre_iff (p s : Str) : isPre p s = true ↔ ∃ t, s = p ++ t := by
  induction p generalizing s with
  | nil => simp [isPre]
  | cons a p ih =>
    cases s with
    | nil =>
      simp only [isPre, Bool.false_eq_true, false_iff, not_exists]
      intro t ht
      exact (List.cons_ne_nil a (p ++ t)) ht.symm
    | cons b s =>
      simp only [isPre, Bool.and_eq_true, decide_eq_true_eq, ih,
        List.cons_append, List.cons.injEq]
      constructor
      · rintro ⟨rfl, t, rfl⟩
        exact ⟨t, rfl, rfl⟩
      · rintro ⟨t, h1, h2⟩
        exact ⟨h1.symm, t, h2⟩

theorem isPre_append_self (p t : Str) : isPre p (p ++ t) = true :=
  (isPre_iff p (p ++ t)).2 ⟨t, rfl⟩

theorem isPre_length_le {p s : Str} (h : isPre p s = true) :
    p.length ≤ s.length := by
  obtain ⟨t, rfl⟩ := (isPre_iff p s).1 h
  simp

theorem isPre_head_ne {a b : Char} {p s : Str} (h : a ≠ b) :
    isPre (a :: p) (b :: s) = false := by
  simp [isPre, h]

theorem isPre_nil_right {p : Str} (h : p ≠ []) : isPre p [] = false := by
  cases p with
  | nil => exact absurd rfl h
  | cons a p => rfl

/-- Prefix-testing only looks at the first `p.length` characters. -/
theorem isPre_append_of_le {p x : Str} (y : Str) (h : p.length ≤ x.length) :
    isPre p (x ++ y) = isPre p x := by
  induction p generalizing x with
  | nil => simp [isPre]
  | cons a p ih =>
    cases x with
    | nil => simp at h
    | cons b x =>
      simp only [List.cons_append, isPre]
      simp only [List.length_cons, Nat.add_le_add_iff_right] at h
      rw [List.append_eq, ih h]

theorem firstOcc_nil_of_ne {pat : Str} (h : pat ≠ []) :
    firstOcc pat [] = none := by
  simp [firstOcc, isPre_nil_right h]

theorem firstOcc_some {pat s : Str} {i : Nat} (h : firstOcc pat s = some i) :
    isPre pat (s.drop i) = true ∧ ∀ j, j < i → isPre pat (s.drop j) = false := by
  induction s generalizing i with
  | nil =>
    simp only [firstOcc] at h
    by_cases hp : isPre pat [] = true
    · rw [if_pos hp] at h
      injection h with h
      subst h
      exact ⟨hp, fun j hj => absurd hj (Nat.not_lt_zero j)⟩
    · rw [if_neg hp] at h
      exact absurd h (by simp)
  | cons c cs ih =>
    simp only [firstOcc] at h
    by_cases hp : isPre pat (c :: cs) = true
    · rw [if_pos hp] at h
      injection h with h
      subst h
      exact ⟨hp, fun j hj => absurd hj (Nat.not_lt_zero j)⟩
    · rw [if_neg hp] at h
      cases hfo : firstOcc pat cs with
      | none => rw [hfo] at h; exact absurd h (by simp)
      | some k =>
        rw [hfo] at h
        simp only [Option.map_some', Option.some.injEq] at h
        subst h
        obtain ⟨h1, h2⟩ := ih hfo
        refine ⟨h1, fun j hj => ?_⟩
        cases j with
        | zero =>
          rw [List.drop_zero]
          exact Bool.eq_false_iff.2 hp
        | succ j =>
          rw [List.drop_succ_cons]
          exact h2 j (Nat.lt_of_succ_lt_succ hj)

theorem firstOcc_none {pat s : Str} (h : firstOcc pat s = none) :
    ∀ j, isPre pat (s.drop j) = false := by
  induction s with
  | nil =>
    intro j
    simp only [firstOcc] at h
    by_cases hp : isPre pat [] = true
    · rw [if_pos hp] at h; exact absurd h (by simp)
    · rw [List.drop_nil]
      exact Bool.eq_false_iff.2 hp
  | cons c cs ih =>
    intro j
    simp only [firstOcc] at h
    by_cases hp : isPre pat (c :: cs) = true
    · rw [if_pos hp] at h; exact absurd h (by simp)
    · rw [if_neg hp, Option.map_eq_none'] at h
      cases j with
      | zero =>
        rw [List.drop_zero]
        exact Bool.eq_false_iff.2 hp
      | succ j =>
        rw [List.drop_succ_cons]
        exact ih h j

theorem firstOcc_eq_some {pat s : Str} {i : Nat}
    (h1 : isPre pat (s.drop i) = true)
    (h2 : ∀ j, j < i → isPre pat (s.drop j) = false) :
    firstOcc pat s = some i := by
  induction s generalizing i with
  | nil =>
    cases i with
    | zero => simp only [List.drop_nil] at h1; simp [firstOcc, h1]
    | succ i =>
      have h0 := h2 0 (Nat.zero_lt_succ i)
      simp only [List.drop_nil] at h1 h0
      rw [h1] at h0; simp at h0
  | cons c cs ih =>
    cases i with
    | zero => simp only [List.drop_zero] at h1; simp [firstOcc, h1]
    | succ i =>
      have h0 := h2 0 (Nat.zero_lt_succ i)
      simp only [List.drop_zero] at h0
      rw [List.drop_succ_cons] at h1
      have hcs : firstOcc pat cs = some i :=
        ih h1 (fun j hj => by
          have := h2 (j + 1) (Nat.succ_lt_succ hj)
          rwa [List.drop_succ_cons] at this)
      simp [firstOcc, h0, hcs]

theorem hasOccur_eq_false {pat s : Str} (h : hasOccur pat s = false) :
    ∀ j, isPre pat (s.drop j) = false := by
  have : firstOcc pat s = none := by
    unfold hasOccur at h
    cases hfo : firstOcc pat s with
    | none => rfl
    | some k => rw [hfo] at h; simp at h
  exact firstOcc_none this

theorem firstOcc_le_length {pat s : Str} {i : Nat}
    (h : firstOcc pat s = some i) : i ≤ s.length := by
  induction s generalizing i with
  | nil =>
    simp only [firstOcc] at h
    split at h
    · injection h with h; subst h; simp
    · exact absurd h (by simp)
  | cons c cs ih =>
    simp only [firstOcc] at h
    split at h
    · injection h with h; subst h; simp
    · cases hfo : firstOcc pat cs with
      | none => rw [hfo] at h; exact absurd h (by simp)
      | some k =>
        rw [hfo] at h
        simp only [Option.map_some', Option.some.injEq] at h
        subst h
        simpa using Nat.succ_le_succ (ih hfo)

theorem hasOccur_of_isPre_drop {pat s : Str} {j : Nat}
    (h : isPre pat (s.drop j) = true) : hasOccur pat s = true := by
  unfold hasOccur
  cases hfo : firstOcc pat s with
  | some k => rfl
  | none => rw [firstOcc_none hfo j] at h; exact absurd h (by simp)

/-- Occurrence in a prefix extends to the whole string. -/
theorem hasOccur_append_left {pat A : Str} (B : Str)
    (h : hasOccur pat A = true) : hasOccur pat (A ++ B) = true := by
  unfold hasOccur at h
  cases hfo : firstOcc pat A with
  | none => rw [hfo] at h; exact absurd h (by simp)
  | some i =>
    have h1 := (firstOcc_some hfo).1
    have hl : pat.length ≤ (A.drop i).length := isPre_length_le h1
    have hd : (A ++ B).drop i = A.drop i ++ B :=
      List.drop_append_of_le_length (firstOcc_le_length hfo)
    apply hasOccur_of_isPre_drop (j := i)
    rw [hd, isPre_append_of_le B hl]
    exact h1

theorem replaceAll_nil (pat rep : Str) : replaceAll pat rep [] = [] := by
  rw [replaceAll]

theorem replaceAll_cons (pat rep : Str) (c : Char) (cs : Str) :
    replaceAll pat rep (c :: cs) =
      if isPre pat (c :: cs) = true ∧ pat ≠ [] then
        rep ++ replaceAll pat rep ((c :: cs).drop pat.length)
      else c :: replaceAll pat rep cs := by
  rw [replaceAll]
  exact dite_eq_ite

/-- Function `replaceAll` is the identity on strings without an occurrence. -/
theorem replaceAll_of_no_occur {pat : Str} (rep : Str) {s : Str}
    (h : ∀ i, isPre pat (s.drop i) = false) : replaceAll pat rep s = s := by
  induction s with
  | nil => exact replaceAll_nil pat rep
  | cons c cs ih =>
    rw [replaceAll_cons]
    have h0 : isPre pat (c :: cs) = false := by simpa using h 0
    rw [if_neg (fun hc => by rw [h0] at hc; exact absurd hc.1 (by simp))]
    rw [ih (fun i => by simpa using h (i + 1))]

/-- Scanning passes over a region where no match starts. -/
theorem replaceAll_skip {pat : Str} (rep : Str) {A B : Str}
    (h : ∀ i, i < A.length → isPre pat ((A ++ B).drop i) = false) :
    replaceAll pat rep (A ++ B) = A ++ replaceAll pat rep B := by
  induction A with
  | nil => simp
  | cons c A ih =>
    rw [List.cons_append, replaceAll_cons]
    have h0 : isPre pat (c :: (A ++ B)) = false := by simpa using h 0 (by simp)
    rw [if_neg (fun hc => by rw [h0] at hc; exact absurd hc.1 (by simp))]
    rw [ih (fun i hi => by simpa using h (i + 1) (by simpa using hi))]
    rfl

/-- A match right at the head is taken, and scanning resumes after it. -/
theorem replaceAll_match {pat : Str} (rep : Str) (hne : pat ≠ []) (B : Str) :
    replaceAll pat rep (pat ++ B) = rep ++ replaceAll pat rep B := by
  obtain ⟨a, p, rfl⟩ : ∃ a p, pat = a :: p := by
    cases pat with
    | nil => exact absurd rfl hne
    | cons a p => exact ⟨a, p, rfl⟩
  rw [List.cons_append, replaceAll_cons,
    if_pos ⟨by rw [← List.cons_append]; exact isPre_append_self _ B, hne⟩]
  congr 1
  rw [← List.cons_append, List.drop_left]

/-- Behaviour of `replaceAll` on `A ++ pat ++ B` when the first occurrence of `pat` is
exactly at `A.length` and `B` is occurrence-free. -/
theorem replaceAll_decompose {pat A B : Str} (rep : Str) (hne : pat ≠ [])
    (hA : firstOcc pat (A ++ pat) = some A.length)
    (hB : hasOccur pat B = false) :
    replaceAll pat rep (A ++ (pat ++ B)) = A ++ (rep ++ B) := by
  have hskip : ∀ i, i < A.length → isPre pat ((A ++ (pat ++ B)).drop i) = false := by
    intro i hi
    have h2 := (firstOcc_some hA).2 i hi
    have hd : (A ++ (pat ++ B)).drop i = ((A ++ pat).drop i) ++ B := by
      rw [← List.append_assoc]
      apply List.drop_append_of_le_length
      simp; omega
    have hl : pat.length ≤ ((A ++ pat).drop i).length := by
      simp [List.length_drop]; omega
    rw [hd, isPre_append_of_le B hl]
    exact h2
  rw [replaceAll_skip rep hskip, replaceAll_match rep hne B,
    replaceAll_of_no_occur rep (hasOccur_eq_false hB)]


/-! Concrete oracles and arguments used in witnesses. -/

/-- A world with no RAG components and trivial oracles. -/
def wNoop : World :=
  ⟨false, fun _ => Except.error [], fun _ _ _ _ => Except.error [], [],
    fun _ => [], fun _ => [], fun _ => Except.ok ()⟩

/-- A world with RAG components whose database calls succeed with one
snippet. -/
def wDbOk : World :=
  ⟨true, fun _ => Except.ok 0,
    fun _ _ _ _ => Except.ok ⟨["s = vtk.vtkSphereSource()".data], [], []⟩,
    ["vtkSphereSource".data], fun _ => [], fun _ => [], fun _ => Except.ok ()⟩

/-- A world with RAG components whose database initialization raises. -/
def wDbErr : World :=
  ⟨true, fun _ => Except.error "db down".data,
    fun _ _ _ _ => Except.error "q".data,
    ["vtkSphereSource".data], fun _ => [], fun _ => [], fun _ => Except.ok ()⟩

/-- A world whose `exec` raises. -/
def wBoom : World :=
  ⟨false, fun _ => Except.error [], fun _ _ _ _ => Except.error [], [],
    fun _ => [], fun _ => [], fun _ => Except.error "boom".data⟩

/-- Environment with no API keys. -/
def envNone : Env := ⟨none, none⟩

/-- Environment with both API keys set. -/
def envKeys : Env := ⟨some "anth-key".data, some "oai-key".data⟩

/-- Default CLI arguments for input `"draw a sphere"`. -/
def args0 : RawArgs :=
  ⟨"draw a sphere".data, none, "claude-3-5-haiku-latest".data, 1000, none, none,
    false, false, "vtk-examples".data, "./db/codesage-codesage-large-v2".data, 5⟩

/-- As `args0` but with `--rag` set. -/
def args0rag : RawArgs :=
  ⟨"draw a sphere".data, none, "claude-3-5-haiku-latest".data, 1000, none, none,
    true, false, "vtk-examples".data, "./db/codesage-codesage-large-v2".data, 5⟩

/-- As `args0rag` but for provider `nim` with no base URL. -/
def args0nim : RawArgs :=
  ⟨"draw a sphere".data, some "nim".data, "meta/llama3-70b-instruct".data, 1000,
    none, none, true, false, "vtk-examples".data,
    "./db/codesage-codesage-large-v2".data, 5⟩

/-- Every joined element is an infix of the join. -/
theorem joinSep_mem_infix {sep x : Str} {xs : List Str} (h : x ∈ xs) :
    x <:+: joinSep sep xs := by
  induction xs with
  | nil => exact absurd h (List.not_mem_nil x)
  | cons y ys ih =>
    rcases List.mem_cons.1 h with rfl | hmem
    · cases ys with
      | nil => exact List.infix_rfl
      | cons z zs =>
        rw [joinSep]
        exact ⟨[], sep ++ joinSep sep (z :: zs), by simp⟩
    · cases ys with
      | nil => exact absurd hmem (List.not_mem_nil x)
      | cons z zs =>
        rw [joinSep]
        obtain ⟨s, t, hst⟩ := ih hmem
        exact ⟨y ++ sep ++ s, t, by rw [← hst]; simp⟩

/-! ## Helper lemmas -/

theorem lookup_append_some {α β : Type} [BEq α] {a : α} {b : β}
    {l₁ : List (α × β)} (l₂ : List (α × β)) (h : List.lookup a l₁ = some b) :
    List.lookup a (l₁ ++ l₂) = some b := by
  induction l₁ with
  | nil => simp [List.lookup] at h
  | cons kv t ih =>
    obtain ⟨k, v⟩ := kv
    cases hk : a == k with
    | true => simp only [List.cons_append, List.lookup, hk] at h ⊢; exact h
    | false => simp only [List.cons_append, List.lookup, hk] at h ⊢; exact ih h

theorem lookup_append_none {α β : Type} [BEq α] {a : α}
    {l₁ : List (α × β)} (l₂ : List (α × β)) (h : List.lookup a l₁ = none) :
    List.lookup a (l₁ ++ l₂) = List.lookup a l₂ := by
  induction l₁ with
  | nil => simp
  | cons kv t ih =>
    obtain ⟨k, v⟩ := kv
    cases hk : a == k with
    | true =>
      simp only [List.lookup, hk] at h
      exact absurd h (by simp)
    | false =>
      simp only [List.cons_append, List.lookup, hk] at h ⊢
      exact ih h

theorem lookup_mem {α β : Type} [BEq α] [LawfulBEq α] {a : α} {b : β}
    {l : List (α × β)} (h : List.lookup a l = some b) : (a, b) ∈ l := by
  induction l with
  | nil => simp [List.lookup] at h
  | cons kv t ih =>
    obtain ⟨k, v⟩ := kv
    cases hk : a == k with
    | true =>
      simp only [List.lookup, hk] at h
      injection h with h
      have ha : a = k := eq_of_beq hk
      subst ha; subst h
      exact List.mem_cons_self _ _
    | false =>
      simp only [List.lookup, hk] at h
      exact List.mem_cons_of_mem _ (ih h)

theorem lookup_eq_none_of_not_mem {α β : Type} [BEq α] [LawfulBEq α] {a : α}
    {l : List (α × β)} (h : a ∉ l.map Prod.fst) : List.lookup a l = none := by
  induction l with
  | nil => rfl
  | cons kv t ih =>
    obtain ⟨k, v⟩ := kv
    cases hk : a == k with
    | true =>
      exact absurd (List.mem_map.2 ⟨(k, v), List.mem_cons_self _ _,
        (eq_of_beq hk).symm⟩) h
    | false =>
      simp only [List.lookup, hk]
      exact ih (fun hm => h (List.mem_map.2 (by
        obtain ⟨kv', hkv', hfst⟩ := List.mem_map.1 hm
        exact ⟨kv', List.mem_cons_of_mem _ hkv', hfst⟩)))

/-- No prefix match of a `{`-headed pattern can start inside `{`-free text. -/
theorem no_lbrace_pre (pat' : Str) {A : Str} (B : Str) (hA : lbrace ∉ A) :
    ∀ j, j < A.length → isPre (lbrace :: pat') ((A ++ B).drop j) = false := by
  induction A with
  | nil => intro j hj; simp at hj
  | cons c t ih =>
    intro j hj
    cases j with
    | zero =>
      rw [List.drop_zero, List.cons_append]
      exact isPre_head_ne (fun he => hA (he ▸ List.mem_cons_self c t))
    | succ j =>
      rw [List.cons_append, List.drop_succ_cons]
      exact ih (fun hm => hA (List.mem_cons_of_mem c hm)) j
        (Nat.lt_of_succ_lt_succ hj)

/-- Variant covering the two closing braces after the text. -/
theorem no_lbrace_pre2 (pat' : Str) {A : Str} (B : Str) (hA : lbrace ∉ A) :
    ∀ j, j < A.length + 2 →
      isPre (lbrace :: pat') ((A ++ rbrace :: rbrace :: B).drop j) = false := by
  induction A with
  | nil =>
    intro j hj
    simp only [List.length_nil, Nat.zero_add] at hj
    cases j with
    | zero => exact isPre_head_ne (by decide)
    | succ j =>
      cases j with
      | zero => exact isPre_head_ne (by decide)
      | succ j => exact absurd hj (by omega)
  | cons c t ih =>
    intro j hj
    cases j with
    | zero =>
      rw [List.drop_zero, List.cons_append]
      exact isPre_head_ne (fun he => hA (he ▸ List.mem_cons_self c t))
    | succ j =>
      rw [List.cons_append, List.drop_succ_cons]
      exact ih (fun hm => hA (List.mem_cons_of_mem c hm)) j
        (by simpa [Nat.succ_lt_succ_iff] using hj)

theorem word_ne_lbrace {c : Char} (h : isPyWord c = true) : c ≠ lbrace := by
  intro he
  subst he
  exact absurd h (by decide)

theorem word_ne_rbrace {c : Char} (h : isPyWord c = true) : c ≠ rbrace := by
  intro he
  subst he
  exact absurd h (by decide)

theorem word_not_space {c : Char} (h : isPyWord c = true) :
    isPySpace c = false := by
  cases hs : isPySpace c with
  | false => rfl
  | true =>
    exfalso
    simp only [isPySpace, Bool.or_eq_true, decide_eq_true_eq] at hs
    rcases hs with ((((rfl | rfl) | rfl) | rfl) | rfl) | rfl <;>
      exact absurd h (by decide)

theorem takeWhile_append_all {p : Char → Bool} {v : Str} (x : Char) (t : Str)
    (hv : ∀ c ∈ v, p c = true) (hx : p x = false) :
    (v ++ x :: t).takeWhile p = v := by
  induction v with
  | nil => simp [List.takeWhile, hx]
  | cons c v ih =>
    rw [List.cons_append, List.takeWhile]
    rw [hv c (List.mem_cons_self c v)]
    rw [ih (fun c hc => hv c (List.mem_cons_of_mem _ hc))]

/-- Two distinct word-names followed by `}` never prefix-match. -/
theorem wordy_cancel {k k' : Str} (X Y : Str)
    (hk : ∀ c ∈ k, isPyWord c = true) (hk' : ∀ c ∈ k', isPyWord c = true)
    (hne : k' ≠ k) :
    isPre (k' ++ rbrace :: X) (k ++ rbrace :: Y) = false := by
  induction k' generalizing k with
  | nil =>
    cases k with
    | nil => exact absurd rfl hne
    | cons c t =>
      rw [List.nil_append, List.cons_append]
      exact isPre_head_ne
        (fun he => word_ne_rbrace (hk c (List.mem_cons_self c t)) he.symm)
  | cons c' t' ih =>
    cases k with
    | nil =>
      rw [List.cons_append, List.nil_append]
      exact isPre_head_ne (word_ne_rbrace (hk' c' (List.mem_cons_self c' t')))
    | cons c t =>
      rw [List.cons_append, List.cons_append]
      by_cases hcc : c' = c
      · subst hcc
        have : isPre (t' ++ rbrace :: X) (t ++ rbrace :: Y) = false :=
          ih (fun d hd => hk d (List.mem_cons_of_mem _ hd))
            (fun d hd => hk' d (List.mem_cons_of_mem _ hd))
            (fun he => hne (he ▸ rfl))
        simp [isPre, this]
      · exact isPre_head_ne hcc

/-- A placeholder of one word-name never prefix-matches inside the
placeholder of a different word-name. -/
theorem mkPH_not_pre {k k' : Str} (B : Str)
    (hk : ∀ c ∈ k, isPyWord c = true) (hk' : ∀ c ∈ k', isPyWord c = true)
    (hkne : k ≠ []) (hne : k' ≠ k) :
    ∀ j, j < (mkPH k).length → isPre (mkPH k') ((mkPH k ++ B).drop j) = false := by
  have hshape : mkPH k ++ B = lbrace :: lbrace :: (k ++ rbrace :: rbrace :: B) := by
    simp [mkPH]
  have hshape' : mkPH k' = lbrace :: lbrace :: (k' ++ rbrace :: rbrace :: []) := by
    simp [mkPH]
  intro j hj
  have hjlen : j < k.length + 4 := by
    simpa [mkPH, Nat.add_comm, Nat.add_assoc, Nat.add_left_comm] using hj
  rw [hshape]
  match j with
  | 0 =>
    rw [List.drop_zero, hshape']
    have hwc : isPre (k' ++ rbrace :: (rbrace :: []))
        (k ++ rbrace :: (rbrace :: B)) = false :=
      wordy_cancel _ _ hk hk' hne
    simp only [isPre]
    simp only [List.append_eq] at hwc ⊢
    rw [hwc]
    simp
  | 1 =>
    rw [List.drop_succ_cons, List.drop_zero, hshape']
    cases k with
    | nil => exact absurd rfl hkne
    | cons c t =>
      rw [List.cons_append]
      have hc : c ≠ lbrace := word_ne_lbrace (hk c (List.mem_cons_self c t))
      simp [isPre, Ne.symm hc]
  | (j + 2) =>
    rw [List.drop_succ_cons, List.drop_succ_cons, hshape']
    have hklb : lbrace ∉ k := fun hm => word_ne_lbrace (hk lbrace hm) rfl
    exact no_lbrace_pre2 _ B hklb j (by omega)

set_option maxRecDepth 10000 in
/-- Substituting the description splits the template around
the user message. -/
theorem context_subst (msg : Str) :
    replaceAll descPat msg CONTEXT = ctxPre ++ (msg ++ ctxPost) := by
  rw [CONTEXT]
  exact replaceAll_decompose msg (by decide) (by decide) (by decide)

set_option maxRecDepth 10000 in
/-- The class-list placeholder survives description substitution. -/
theorem listPat_in_context (msg : Str) :
    hasOccur listPat (replaceAll descPat msg CONTEXT) = true := by
  rw [context_subst]
  exact hasOccur_append_left _ (by decide)

/-- The trace of `run_code`: exactly one `exec` of `codeSegment`, no API
calls and no database lookups. -/
theorem run_code_trace (w : World) (code : Str) (v : Bool) :
    execSegments (run_code w code v).1 = [codeSegment code]
    ∧ apiContexts (run_code w code v).1 = []
    ∧ anthropicContexts (run_code w code v).1 = []
    ∧ openaiCalls (run_code w code v).1 = []
    ∧ ∀ e ∈ (run_code w code v).1, isRagLookup e = false := by
  unfold run_code
  cases hex : w.execResult (codeSegment code) <;> cases v <;>
    simp [hex, execSegments, apiContexts, anthropicContexts, openaiCalls,
      isRagLookup]

theorem anthropicContexts_append (a b : List Event) :
    anthropicContexts (a ++ b) = anthropicContexts a ++ anthropicContexts b :=
  List.filterMap_append a b _

theorem openaiCalls_append (a b : List Event) :
    openaiCalls (a ++ b) = openaiCalls a ++ openaiCalls b :=
  List.filterMap_append a b _

theorem apiContexts_append (a b : List Event) :
    apiContexts (a ++ b) = apiContexts a ++ apiContexts b :=
  List.filterMap_append a b _

/-! Branch equations for the query functions. -/

theorem anthropic_query_plain (w : World) (msg : Str) :
    anthropic_query w msg false
      = ([Event.anthropicApi (replaceAll descPat msg CONTEXT)],
         w.anthropicText (replaceAll descPat msg CONTEXT)) := rfl

theorem anthropic_query_noavail (w : World) (msg : Str)
    (ha : w.ragAvailable = false) :
    anthropic_query w msg true
      = ([Event.anthropicApi
            (replaceAll listPat (classList w) (replaceAll descPat msg CONTEXT))],
         w.anthropicText
            (replaceAll listPat (classList w) (replaceAll descPat msg CONTEXT))) := by
  simp [anthropic_query, ha]

theorem anthropic_query_hit (w : World) (msg : Str) (rs : RagSnippets)
    (ha : w.ragAvailable = true)
    (hs : get_rag_snippets w msg defaultRagParams = some rs) :
    anthropic_query w msg true
      = ([Event.ragLookup defaultRagParams msg,
          Event.anthropicApi (enhancedContext msg (joinSep nlnl rs.code_snippets))],
         w.anthropicText (enhancedContext msg (joinSep nlnl rs.code_snippets))) := by
  simp [anthropic_query, ha, hs, anthropic_query_with_rag_snippets]

theorem anthropic_query_miss (w : World) (msg : Str)
    (ha : w.ragAvailable = true)
    (hs : get_rag_snippets w msg defaultRagParams = none) :
    anthropic_query w msg true
      = ([Event.ragLookup defaultRagParams msg,
          Event.anthropicApi
            (replaceAll listPat (classList w) (replaceAll descPat msg CONTEXT))],
         w.anthropicText
            (replaceAll listPat (classList w) (replaceAll descPat msg CONTEXT))) := by
  simp [anthropic_query, ha, hs]

theorem openai_query_plain (w : World) (msg : Str) (bu : Option Str) :
    openai_query w msg false bu
      = ([Event.openaiApi (replaceAll descPat msg CONTEXT) bu],
         w.openaiText (replaceAll descPat msg CONTEXT)) := rfl

theorem openai_query_noavail (w : World) (msg : Str) (bu : Option Str)
    (ha : w.ragAvailable = false) :
    openai_query w msg true bu
      = ([Event.openaiApi
            (replaceAll listPat (classList w) (replaceAll descPat msg CONTEXT)) bu],
         w.openaiText
            (replaceAll listPat (classList w) (replaceAll descPat msg CONTEXT))) := by
  simp [openai_query, ha]

theorem openai_query_hit (w : World) (msg : Str) (bu : Option Str) (rs : RagSnippets)
    (ha : w.ragAvailable = true)
    (hs : get_rag_snippets w msg defaultRagParams = some rs) :
    openai_query w msg true bu
      = ([Event.ragLookup defaultRagParams msg,
          Event.openaiApi (enhancedContext msg (joinSep nlnl rs.code_snippets)) bu],
         w.openaiText (enhancedContext msg (joinSep nlnl rs.code_snippets))) := by
  simp [openai_query, ha, hs, openai_query_with_rag_snippets]

theorem openai_query_miss (w : World) (msg : Str) (bu : Option Str)
    (ha : w.ragAvailable = true)
    (hs : get_rag_snippets w msg defaultRagParams = none) :
    openai_query w msg true bu
      = ([Event.ragLookup defaultRagParams msg,
          Event.openaiApi
            (replaceAll listPat (classList w) (replaceAll descPat msg CONTEXT)) bu],
         w.openaiText
            (replaceAll listPat (classList w) (replaceAll descPat msg CONTEXT))) := by
  simp [openai_query, ha, hs]

/-! Branch equations for the provider dispatch and the CLI run. -/

theorem dispatch_else_a (w : World) (bu : Option Str) (args : RawArgs)
    (h : (args.rag && w.ragAvailable) = false) :
    providerDispatch w Provider.anthropic bu args
      = anthropic_query w args.input_string args.rag := by
  simp [providerDispatch, h]

theorem dispatch_else_o {p : Provider} (w : World) (bu : Option Str)
    (args : RawArgs) (hp : p ≠ Provider.anthropic)
    (h : (args.rag && w.ragAvailable) = false) :
    providerDispatch w p bu args
      = openai_query w args.input_string args.rag bu := by
  cases p with
  | anthropic => exact absurd rfl hp
  | openai => simp [providerDispatch, h]
  | nim => simp [providerDispatch, h]

theorem dispatch_hit_a (w : World) (bu : Option Str) (args : RawArgs)
    (rs : RagSnippets)
    (h : (args.rag && w.ragAvailable) = true)
    (hs : get_rag_snippets w args.input_string
        ⟨args.collection, args.database, args.top_k⟩ = some rs) :
    providerDispatch w Provider.anthropic bu args
      = ([Event.ragLookup ⟨args.collection, args.database, args.top_k⟩
            args.input_string,
          Event.anthropicApi
            (enhancedContext args.input_string (joinSep nlnl rs.code_snippets))],
         w.anthropicText
            (enhancedContext args.input_string (joinSep nlnl rs.code_snippets))) := by
  simp [providerDispatch, h, hs, anthropic_query_with_rag_snippets]

theorem dispatch_hit_o {p : Provider} (w : World) (bu : Option Str)
    (args : RawArgs) (rs : RagSnippets) (hp : p ≠ Provider.anthropic)
    (h : (args.rag && w.ragAvailable) = true)
    (hs : get_rag_snippets w args.input_string
        ⟨args.collection, args.database, args.top_k⟩ = some rs) :
    providerDispatch w p bu args
      = ([Event.ragLookup ⟨args.collection, args.database, args.top_k⟩
            args.input_string,
          Event.openaiApi
            (enhancedContext args.input_string (joinSep nlnl rs.code_snippets)) bu],
         w.openaiText
            (enhancedContext args.input_string (joinSep nlnl rs.code_snippets))) := by
  cases p with
  | anthropic => exact absurd rfl hp
  | openai => simp [providerDispatch, h, hs, openai_query_with_rag_snippets]
  | nim => simp [providerDispatch, h, hs, openai_query_with_rag_snippets]

theorem dispatch_miss_a (w : World) (bu : Option Str) (args : RawArgs)
    (h : (args.rag && w.ragAvailable) = true)
    (hs : get_rag_snippets w args.input_string
        ⟨args.collection, args.database, args.top_k⟩ = none) :
    providerDispatch w Provider.anthropic bu args
      = (Event.ragLookup ⟨args.collection, args.database, args.top_k⟩
            args.input_string :: (anthropic_query w args.input_string args.rag).1,
         (anthropic_query w args.input_string args.rag).2) := by
  rcases hq : anthropic_query w args.input_string args.rag with ⟨es, t⟩
  simp [providerDispatch, h, hs, hq]

theorem dispatch_miss_o {p : Provider} (w : World) (bu : Option Str)
    (args : RawArgs) (hp : p ≠ Provider.anthropic)
    (h : (args.rag && w.ragAvailable) = true)
    (hs : get_rag_snippets w args.input_string
        ⟨args.collection, args.database, args.top_k⟩ = none) :
    providerDispatch w p bu args
      = (Event.ragLookup ⟨args.collection, args.database, args.top_k⟩
            args.input_string :: (openai_query w args.input_string args.rag bu).1,
         (openai_query w args.input_string args.rag bu).2) := by
  rcases hq : openai_query w args.input_string args.rag bu with ⟨es, t⟩
  cases p with
  | anthropic => exact absurd rfl hp
  | openai => simp [providerDispatch, h, hs, hq]
  | nim => simp [providerDispatch, h, hs, hq]

theorem cliRun_ok {env : Env} {args : RawArgs} {p : Provider} {tok : Str}
    (w : World)
    (hp : parseProvider args.provider = Except.ok p)
    (ht : resolveToken p args.token env = Except.ok tok) :
    cliRun w env args
      = ((providerDispatch w p (resolveBaseUrl p args.base_url) args).1
           ++ (run_code w
                (providerDispatch w p (resolveBaseUrl p args.base_url) args).2
                args.verbose).1,
         Except.ok ()) := by
  simp only [cliRun, hp, ht]

/-- Shape of the dispatch trace: exactly one API call, on the channel of
the selected provider, with the given base URL on the OpenAI channel. -/
theorem dispatch_api_shape (w : World) (p : Provider) (bu : Option Str)
    (args : RawArgs) :
    (p = Provider.anthropic →
      ∃ c, anthropicContexts (providerDispatch w p bu args).1 = [c]
        ∧ openaiCalls (providerDispatch w p bu args).1 = []
        ∧ apiContexts (providerDispatch w p bu args).1 = [c])
    ∧ (p ≠ Provider.anthropic →
      ∃ c, openaiCalls (providerDispatch w p bu args).1 = [(c, bu)]
        ∧ anthropicContexts (providerDispatch w p bu args).1 = []
        ∧ apiContexts (providerDispatch w p bu args).1 = [c]) := by
  constructor
  · rintro rfl
    cases h : (args.rag && w.ragAvailable) with
    | false =>
      rw [dispatch_else_a w bu args h]
      cases hr : args.rag with
      | false => rw [anthropic_query_plain]; exact ⟨_, rfl, rfl, rfl⟩
      | true =>
        have hav : w.ragAvailable = false := by rw [hr] at h; simpa using h
        rw [anthropic_query_noavail w args.input_string hav]
        exact ⟨_, rfl, rfl, rfl⟩
    | true =>
      have hh := h
      rw [Bool.and_eq_true] at hh
      obtain ⟨hrag, hav⟩ := hh
      cases hs : get_rag_snippets w args.input_string
          ⟨args.collection, args.database, args.top_k⟩ with
      | some rs =>
        rw [dispatch_hit_a w bu args rs h hs]
        exact ⟨_, rfl, rfl, rfl⟩
      | none =>
        rw [dispatch_miss_a w bu args h hs, hrag]
        cases hs2 : get_rag_snippets w args.input_string defaultRagParams with
        | some rs2 =>
          rw [anthropic_query_hit w args.input_string rs2 hav hs2]
          exact ⟨_, rfl, rfl, rfl⟩
        | none =>
          rw [anthropic_query_miss w args.input_string hav hs2]
          exact ⟨_, rfl, rfl, rfl⟩
  · intro hp
    cases h : (args.rag && w.ragAvailable) with
    | false =>
      rw [dispatch_else_o w bu args hp h]
      cases hr : args.rag with
      | false => rw [openai_query_plain]; exact ⟨_, rfl, rfl, rfl⟩
      | true =>
        have hav : w.ragAvailable = false := by rw [hr] at h; simpa using h
        rw [openai_query_noavail w args.input_string bu hav]
        exact ⟨_, rfl, rfl, rfl⟩
    | true =>
      have hh := h
      rw [Bool.and_eq_true] at hh
      obtain ⟨hrag, hav⟩ := hh
      cases hs : get_rag_snippets w args.input_string
          ⟨args.collection, args.database, args.top_k⟩ with
      | some rs =>
        rw [dispatch_hit_o w bu args rs hp h hs]
        exact ⟨_, rfl, rfl, rfl⟩
      | none =>
        rw [dispatch_miss_o w bu args hp h hs, hrag]
        cases hs2 : get_rag_snippets w args.input_string defaultRagParams with
        | some rs2 =>
          rw [openai_query_hit w args.input_string bu rs2 hav hs2]
          exact ⟨_, rfl, rfl, rfl⟩
        | none =>
          rw [openai_query_miss w args.input_string bu hav hs2]
          exact ⟨_, rfl, rfl, rfl⟩

/-- Without `--rag` (or without the RAG components) the dispatch performs
no database lookup. -/
theorem dispatch_no_lookup (w : World) (p : Provider) (bu : Option Str)
    (args : RawArgs) (h : (args.rag && w.ragAvailable) = false) :
    ∀ e ∈ (providerDispatch w p bu args).1, isRagLookup e = false := by
  cases p with
  | anthropic =>
    rw [dispatch_else_a w bu args h]
    cases hr : args.rag with
    | false => rw [anthropic_query_plain]; simp [isRagLookup]
    | true =>
      have hav : w.ragAvailable = false := by rw [hr] at h; simpa using h
      rw [anthropic_query_noavail w args.input_string hav]
      simp [isRagLookup]
  | openai =>
    rw [dispatch_else_o w bu args (by simp) h]
    cases hr : args.rag with
    | false => rw [openai_query_plain]; simp [isRagLookup]
    | true =>
      have hav : w.ragAvailable = false := by rw [hr] at h; simpa using h
      rw [openai_query_noavail w args.input_string bu hav]
      simp [isRagLookup]
  | nim =>
    rw [dispatch_else_o w bu args (by simp) h]
    cases hr : args.rag with
    | false => rw [openai_query_plain]; simp [isRagLookup]
    | true =>
      have hav : w.ragAvailable = false := by rw [hr] at h; simpa using h
      rw [openai_query_noavail w args.input_string bu hav]
      simp [isRagLookup]

/-- With `--rag` and available RAG components the dispatch performs the
database lookup with the CLI's RAG options. -/
theorem dispatch_lookup (w : World) (p : Provider) (bu : Option Str)
    (args : RawArgs) (h : (args.rag && w.ragAvailable) = true) :
    Event.ragLookup ⟨args.collection, args.database, args.top_k⟩
        args.input_string ∈ (providerDispatch w p bu args).1 := by
  cases hs : get_rag_snippets w args.input_string
      ⟨args.collection, args.database, args.top_k⟩ with
  | some rs =>
    cases p with
    | anthropic => rw [dispatch_hit_a w bu args rs h hs]; simp
    | openai => rw [dispatch_hit_o w bu args rs (by simp) h hs]; simp
    | nim => rw [dispatch_hit_o w bu args rs (by simp) h hs]; simp
  | none =>
    cases p with
    | anthropic => rw [dispatch_miss_a w bu args h hs]; simp
    | openai => rw [dispatch_miss_o w bu args (by simp) h hs]; simp
    | nim => rw [dispatch_miss_o w bu args (by simp) h hs]; simp

/-! Lemmas for the template-substitution model. -/

theorem noLb_spec {l : Str} (h : noLb l = true) : lbrace ∉ l := by
  intro hm
  rw [noLb, List.all_eq_true] at h
  have := h lbrace hm
  simp at this

theorem wordy_spec {v : Str} (h : wordy v = true) :
    v ≠ [] ∧ ∀ c ∈ v, isPyWord c = true := by
  rw [wordy, Bool.and_eq_true] at h
  refine ⟨fun he => ?_, ?_⟩
  · rw [he] at h
    simp at h
  · have := h.2
    rw [List.all_eq_true] at this
    exact this

theorem handleConditionals_nil (vars : VarMap) :
    handleConditionals vars [] = [] := by
  rw [handleConditionals]

theorem handleConditionals_cons_some (vars : VarMap) {c : Char} {cs : Str}
    {v body rest : Str} (h : tryMatchCond (c :: cs) = some (v, body, rest)) :
    handleConditionals vars (c :: cs)
      = (if truthy vars v then body else []) ++ handleConditionals vars rest := by
  rw [handleConditionals]
  split
  · rename_i v' body' rest' heq
    rw [h] at heq
    injection heq with heq
    rw [Prod.mk.injEq, Prod.mk.injEq] at heq
    obtain ⟨rfl, rfl, rfl⟩ := heq
    rfl
  · rename_i heq
    rw [h] at heq
    exact absurd heq (by simp)

theorem handleConditionals_cons_none (vars : VarMap) {c : Char} {cs : Str}
    (h : tryMatchCond (c :: cs) = none) :
    handleConditionals vars (c :: cs) = c :: handleConditionals vars cs := by
  rw [handleConditionals]
  split
  · rename_i v' body' rest' heq
    rw [h] at heq
    exact absurd heq (by simp)
  · rfl

theorem tryMatchCond_not_lbrace {c : Char} (cs : Str) (hc : c ≠ lbrace) :
    tryMatchCond (c :: cs) = none := by
  have h : isPre condOpen (c :: cs) = false := by
    rw [show condOpen = lbrace :: [lbrace, '#', 'i', 'f'] from rfl]
    exact isPre_head_ne (fun he => hc he.symm)
  simp [tryMatchCond, h]

/-- The scanner copies `{`-free text unchanged. -/
theorem handleConditionals_lit (vars : VarMap) {l : Str} (r : Str)
    (hl : lbrace ∉ l) :
    handleConditionals vars (l ++ r) = l ++ handleConditionals vars r := by
  induction l with
  | nil => simp
  | cons c t ih =>
    have hc : c ≠ lbrace := fun he => hl (he ▸ List.mem_cons_self c t)
    rw [List.cons_append,
      handleConditionals_cons_none vars (tryMatchCond_not_lbrace _ hc),
      ih (fun hm => hl (List.mem_cons_of_mem c hm))]
    rfl

/-- At the start of a rendered conditional block the scanner matches
exactly the block: name, body, and the rest after `{{/if}}`. -/
theorem tryMatchCond_block {v body : Str} (r : Str)
    (hv : wordy v = true) (hb : lbrace ∉ body) :
    tryMatchCond (renderCSeg (CSeg.cond v body) ++ r) = some (v, body, r) := by
  obtain ⟨hvne, hvw⟩ := wordy_spec hv
  have hshape : renderCSeg (CSeg.cond v body) ++ r
      = condOpen ++ (' ' :: (v ++ rbrace :: rbrace :: (body ++ (condClose ++ r)))) := by
    simp [renderCSeg, braceClose, List.append_assoc]
  rw [hshape]
  have e1 : isPre condOpen (condOpen
      ++ (' ' :: (v ++ rbrace :: rbrace :: (body ++ (condClose ++ r))))) = true :=
    isPre_append_self _ _
  have e2 : (condOpen
      ++ (' ' :: (v ++ rbrace :: rbrace :: (body ++ (condClose ++ r))))).drop
        condOpen.length
      = ' ' :: (v ++ rbrace :: rbrace :: (body ++ (condClose ++ r))) :=
    List.drop_left _ _
  have hsp0 : (v ++ rbrace :: rbrace :: (body ++ (condClose ++ r))).takeWhile
      isPySpace = [] := by
    cases v with
    | nil => exact absurd rfl hvne
    | cons c t =>
      rw [List.cons_append, List.takeWhile_cons,
        word_not_space (hvw c (List.mem_cons_self c t))]
      rfl
  have e3 : (' ' :: (v ++ rbrace :: rbrace :: (body ++ (condClose ++ r)))).takeWhile
      isPySpace = [' '] := by
    rw [List.takeWhile_cons, show isPySpace ' ' = true from by decide, hsp0]
    rfl
  have e5 : (v ++ rbrace :: rbrace :: (body ++ (condClose ++ r))).takeWhile
      isPyWord = v :=
    takeWhile_append_all rbrace _ hvw (by decide)
  have e6 : (v ++ rbrace :: rbrace :: (body ++ (condClose ++ r))).drop v.length
      = rbrace :: rbrace :: (body ++ (condClose ++ r)) := List.drop_left _ _
  have e7 : isPre braceClose (rbrace :: rbrace :: (body ++ (condClose ++ r)))
      = true := by
    simp [braceClose, isPre]
  have e8 : firstOcc condClose (body ++ (condClose ++ r)) = some body.length := by
    apply firstOcc_eq_some
    · rw [List.drop_left]
      exact isPre_append_self _ _
    · intro j hj
      rw [show condClose = lbrace :: [lbrace, '/', 'i', 'f', rbrace, rbrace]
        from rfl]
      exact no_lbrace_pre _ _ hb j hj
  have e9 : (body ++ (condClose ++ r)).take body.length = body :=
    List.take_left _ _
  have e10 : (body ++ (condClose ++ r)).drop (body.length + condClose.length)
      = r := by
    rw [← List.append_assoc,
      show body.length + condClose.length = (body ++ condClose).length by simp,
      List.drop_left]
  simp only [tryMatchCond, e1, if_true, e2, e3, e5, e6, e7, e8, e9, e10,
    List.isEmpty_cons, List.length_cons, List.length_nil, List.drop_succ_cons,
    List.drop_zero]
  have e11 : v.isEmpty = false := by
    cases v with
    | nil => exact absurd rfl hvne
    | cons c t => rfl
  simp [e11, braceClose, e8, e9, e10]

/-- The scanner resolves a well-formed conditional block and moves on. -/
theorem handleConditionals_cond (vars : VarMap) {v body : Str} (r : Str)
    (hv : wordy v = true) (hb : lbrace ∉ body) :
    handleConditionals vars (renderCSeg (CSeg.cond v body) ++ r)
      = (if truthy vars v then body else []) ++ handleConditionals vars r := by
  have hm := tryMatchCond_block r hv hb
  have hcons : renderCSeg (CSeg.cond v body) ++ r
      = lbrace :: (([lbrace, '#', 'i', 'f'] ++ (' ' :: v ++ braceClose
          ++ body ++ condClose)) ++ r) := by
    simp [renderCSeg, condOpen, List.append_assoc]
  rw [hcons] at hm ⊢
  exact handleConditionals_cons_some vars hm

/-- Semantics of the conditional phase on well-formed templates: each
block becomes its body when its variable is bound and truthy, the empty
string otherwise; literal text is untouched. -/
theorem handleConditionals_template (vars : VarMap) (segs : List CSeg)
    (hwf : segs.all CSegWF = true) :
    handleConditionals vars (renderCTemplate segs)
      = (segs.map (resolveCSeg vars)).foldr (· ++ ·) [] := by
  induction segs with
  | nil => simp [renderCTemplate, handleConditionals_nil]
  | cons seg segs ih =>
    rw [List.all_cons, Bool.and_eq_true] at hwf
    obtain ⟨h1, h2⟩ := hwf
    have hrt : renderCTemplate (seg :: segs)
        = renderCSeg seg ++ renderCTemplate segs := rfl
    cases seg with
    | lit l =>
      rw [hrt, show renderCSeg (CSeg.lit l) = l from rfl,
        handleConditionals_lit vars _ (noLb_spec h1), ih h2]
      rfl
    | cond v body =>
      rw [CSegWF, Bool.and_eq_true] at h1
      rw [hrt, handleConditionals_cond vars _ h1.1 (noLb_spec h1.2), ih h2]
      rfl

/-- One `str.replace` pass substitutes exactly the placeholders of its
variable in a rendered template and leaves everything else unchanged. -/
theorem replaceAll_ph_step (applied : VarMap) (segs : List PSeg) (k v : Str)
    (hk : wordy k = true)
    (happ : ∀ kv ∈ applied, noLb kv.2 = true)
    (hkapp : List.lookup k applied = none)
    (hsegs : ∀ seg ∈ segs, ∀ n, seg = PSeg.ph n → wordy n = true)
    (hlits : ∀ seg ∈ segs, ∀ l, seg = PSeg.lit l → noLb l = true) :
    replaceAll (mkPH k) v (renderPTemplate applied segs)
      = renderPTemplate (applied ++ [(k, v)]) segs := by
  induction segs with
  | nil => simp [renderPTemplate, replaceAll_nil]
  | cons seg segs ih =>
    have ihr := ih (fun s hs n he => hsegs s (List.mem_cons_of_mem _ hs) n he)
      (fun s hs l he => hlits s (List.mem_cons_of_mem _ hs) l he)
    have hcons : ∀ ap : VarMap, renderPTemplate ap (seg :: segs)
        = renderPSeg ap seg ++ renderPTemplate ap segs := fun ap => rfl
    obtain ⟨hkne, hkw⟩ := wordy_spec hk
    have hpat : mkPH k = lbrace :: (lbrace :: (k ++ [rbrace, rbrace])) := by
      simp [mkPH]
    cases seg with
    | lit l =>
      have hl : noLb l = true := hlits _ (List.mem_cons_self _ _) l rfl
      rw [hcons, hcons, show renderPSeg applied (PSeg.lit l) = l from rfl,
        show renderPSeg (applied ++ [(k, v)]) (PSeg.lit l) = l from rfl]
      have hskip : ∀ i, i < l.length →
          isPre (mkPH k) ((l ++ renderPTemplate applied segs).drop i) = false := by
        intro i hi
        rw [hpat]
        exact no_lbrace_pre _ _ (noLb_spec hl) i hi
      rw [replaceAll_skip v hskip, ihr]
    | ph n =>
      rw [hcons, hcons]
      cases hl : List.lookup n applied with
      | some val =>
        have hvalL : noLb val = true := happ (n, val) (lookup_mem hl)
        have h1 : renderPSeg applied (PSeg.ph n) = val := by
          simp [renderPSeg, hl]
        have h2 : renderPSeg (applied ++ [(k, v)]) (PSeg.ph n) = val := by
          simp [renderPSeg, lookup_append_some _ hl]
        rw [h1, h2]
        have hskip : ∀ i, i < val.length →
            isPre (mkPH k) ((val ++ renderPTemplate applied segs).drop i)
              = false := by
          intro i hi
          rw [hpat]
          exact no_lbrace_pre _ _ (noLb_spec hvalL) i hi
        rw [replaceAll_skip v hskip, ihr]
      | none =>
        have h1 : renderPSeg applied (PSeg.ph n) = mkPH n := by
          simp [renderPSeg, hl]
        by_cases hnk : n = k
        · subst hnk
          have h2 : renderPSeg (applied ++ [(n, v)]) (PSeg.ph n) = v := by
            rw [renderPSeg, lookup_append_none _ hkapp]
            simp [List.lookup]
          rw [h1, h2, replaceAll_match v (by simp [mkPH]) _, ihr]
        · have hnw : wordy n = true := hsegs _ (List.mem_cons_self _ _) n rfl
          obtain ⟨hnne, hnww⟩ := wordy_spec hnw
          have hbeq : (n == k) = false := by
            rw [beq_eq_false_iff_ne]
            exact hnk
          have h2 : renderPSeg (applied ++ [(k, v)]) (PSeg.ph n) = mkPH n := by
            rw [renderPSeg, lookup_append_none _ hl]
            simp [List.lookup, hbeq]
          rw [h1, h2]
          have hskip : ∀ i, i < (mkPH n).length →
              isPre (mkPH k) ((mkPH n ++ renderPTemplate applied segs).drop i)
                = false :=
            mkPH_not_pre _ hnww hkw hnne (fun he => hnk he.symm)
          rw [replaceAll_skip v hskip, ihr]

/-- Folding the placeholder loop over the whole variable list resolves
every placeholder. -/
theorem applyVariables_fold (am : VarMap)
    (hkv : ∀ kv ∈ am, (wordy kv.1 && noLb kv.2) = true)
    (hnd : (am.map Prod.fst).Nodup)
    (segs : List PSeg)
    (hsegs : ∀ seg ∈ segs, ∀ n, seg = PSeg.ph n → wordy n = true)
    (hlits : ∀ seg ∈ segs, ∀ l, seg = PSeg.lit l → noLb l = true) :
    ∀ applied rest, am = applied ++ rest →
      applyVariables (renderPTemplate applied segs) rest
        = renderPTemplate am segs := by
  intro applied rest
  induction rest generalizing applied with
  | nil =>
    intro ham
    rw [List.append_nil] at ham
    subst ham
    rfl
  | cons kv rest ih =>
    intro ham
    obtain ⟨k, v⟩ := kv
    have hstep : applyVariables (renderPTemplate applied segs) ((k, v) :: rest)
        = applyVariables (replaceAll (mkPH k) v (renderPTemplate applied segs))
            rest := rfl
    rw [hstep]
    have hmem : (k, v) ∈ am := by
      rw [ham]
      exact List.mem_append_right _ (List.mem_cons_self _ _)
    have hk : wordy k = true := by
      have := hkv _ hmem
      rw [Bool.and_eq_true] at this
      exact this.1
    have happ : ∀ kv' ∈ applied, noLb kv'.2 = true := by
      intro kv' h'
      have := hkv kv' (by rw [ham]; exact List.mem_append_left _ h')
      rw [Bool.and_eq_true] at this
      exact this.2
    have hkapp : List.lookup k applied = none := by
      apply lookup_eq_none_of_not_mem
      intro hkm
      have hnd' := hnd
      rw [ham, List.map_append] at hnd'
      rcases List.nodup_append.1 hnd' with ⟨hn1, hn2, hdisj⟩
      exact hdisj hkm (by simp)
    rw [replaceAll_ph_step applied segs k v hk happ hkapp hsegs hlits]
    exact ih (applied ++ [(k, v)]) (by rw [ham, List.append_assoc]; rfl)

/-- Semantics of the placeholder phase on well-formed templates: every
placeholder is replaced by its variable's value. -/
theorem applyVariables_template (am : VarMap) (segs : List PSeg)
    (h : PhaseWF am segs = true) :
    applyVariables (renderPTemplate [] segs) am = renderPTemplate am segs := by
  rw [PhaseWF, Bool.and_eq_true, Bool.and_eq_true] at h
  obtain ⟨⟨hkv, hnd⟩, hsegs⟩ := h
  rw [List.all_eq_true] at hkv hsegs
  rw [decide_eq_true_eq] at hnd
  have hph : ∀ seg ∈ segs, ∀ n, seg = PSeg.ph n → wordy n = true := by
    intro seg hs n he
    subst he
    have hmem := hsegs _ hs
    rw [PSegWF, decide_eq_true_eq] at hmem
    obtain ⟨kv, hkv', hfst⟩ := List.mem_map.1 hmem
    have := hkv kv hkv'
    rw [Bool.and_eq_true] at this
    rw [← hfst]
    exact this.1
  have hlit : ∀ seg ∈ segs, ∀ l, seg = PSeg.lit l → noLb l = true := by
    intro seg hs l he
    subst he
    have := hsegs _ hs
    rwa [PSegWF] at this
  exact applyVariables_fold am hkv hnd segs hph hlit [] am rfl

/-- The default-augmented variable map: the defaults are always bound
and caller values override them. -/
theorem augmentVars_defaults (vtkVer : Str) (vm : VarMap) :
    List.lookup "VTK_VERSION".data (augmentVars vtkVer vm)
      = some ((List.lookup "VTK_VERSION".data vm).getD vtkVer)
    ∧ List.lookup "PYTHON_VERSION".data (augmentVars vtkVer vm)
      = some ((List.lookup "PYTHON_VERSION".data vm).getD yamlPythonVersion) := by
  constructor
  · simp [augmentVars, List.lookup]
  · have hne : ("PYTHON_VERSION".data == "VTK_VERSION".data) = false := by decide
    simp [augmentVars, List.lookup, hne]

/-! ## Claim theorems -/

/-- C2: the validated provider is one of anthropic, openai, nim and
defaults to anthropic; for every resolved command line, provider
anthropic leads to exactly one Anthropic API call (and none on the
OpenAI-compatible channel), providers openai and nim lead to exactly one
OpenAI-compatible API call (and none on the Anthropic channel); provider
nim with no `--base-url` uses `https://integrate.api.nvidia.com/v1`. -/
theorem C2_provider_dispatch :
    (∀ s p, parseProvider s = Except.ok p →
      p = Provider.anthropic ∨ p = Provider.openai ∨ p = Provider.nim)
    ∧ parseProvider none = Except.ok Provider.anthropic
    ∧ resolveBaseUrl Provider.nim none = some nvidiaUrl
    ∧ (∀ (w : World) (env : Env) (args : RawArgs) (p : Provider) (tok : Str),
        parseProvider args.provider = Except.ok p →
        resolveToken p args.token env = Except.ok tok →
        (p = Provider.anthropic →
          (anthropicContexts (cliRun w env args).1).length = 1
          ∧ openaiCalls (cliRun w env args).1 = [])
        ∧ ((p = Provider.openai ∨ p = Provider.nim) →
          anthropicContexts (cliRun w env args).1 = []
          ∧ (openaiCalls (cliRun w env args).1).length = 1)
        ∧ (p = Provider.nim → args.base_url = none →
          ∀ c b, (c, b) ∈ openaiCalls (cliRun w env args).1 →
            b = some nvidiaUrl)) := by
  refine ⟨?_, rfl, by simp [resolveBaseUrl], ?_⟩
  · intro s p h
    cases s with
    | none =>
      simp only [parseProvider] at h
      injection h with h
      exact Or.inl h.symm
    | some s =>
      simp only [parseProvider] at h
      split_ifs at h <;> injection h with h <;> subst h
      · exact Or.inl rfl
      · exact Or.inr (Or.inl rfl)
      · exact Or.inr (Or.inr rfl)
  · intro w env args p tok hp ht
    rw [cliRun_ok w hp ht]
    have hrt := run_code_trace w
      (providerDispatch w p (resolveBaseUrl p args.base_url) args).2 args.verbose
    refine ⟨fun hpa => ?_, fun hpo => ?_, fun hpn hbu c b hmem => ?_⟩
    · obtain ⟨c, h1, h2, h3⟩ := (dispatch_api_shape w p
        (resolveBaseUrl p args.base_url) args).1 hpa
      rw [anthropicContexts_append, openaiCalls_append, h1, h2,
        hrt.2.2.1, hrt.2.2.2.1]
      simp
    · have hpne : p ≠ Provider.anthropic := by
        rcases hpo with rfl | rfl <;> simp
      obtain ⟨c, h1, h2, h3⟩ := (dispatch_api_shape w p
        (resolveBaseUrl p args.base_url) args).2 hpne
      rw [anthropicContexts_append, openaiCalls_append, h1, h2,
        hrt.2.2.1, hrt.2.2.2.1]
      simp
    · subst hpn
      obtain ⟨c', h1, h2, h3⟩ := (dispatch_api_shape w Provider.nim
        (resolveBaseUrl Provider.nim args.base_url) args).2 (by simp)
      rw [openaiCalls_append, h1, hrt.2.2.2.1] at hmem
      simp only [List.append_nil, List.mem_singleton, Prod.mk.injEq] at hmem
      rw [hmem.2, hbu]
      simp [resolveBaseUrl]

/-- C2, counterexample to the claim as stated: a parsed command line
selecting provider nim with no `--token` and no environment key invokes
no query path at all — neither an OpenAI-compatible nor an Anthropic API
call happens, and no base URL is ever used — because `parse_args` prints
the token error and exits with status 1 first. -/
theorem C2_counterexample :
    parseProvider args0nim.provider = Except.ok Provider.nim
    ∧ args0nim.base_url = none
    ∧ openaiCalls (cliRun wNoop envNone args0nim).1 = []
    ∧ anthropicContexts (cliRun wNoop envNone args0nim).1 = []
    ∧ (cliRun wNoop envNone args0nim).2 = Except.error 1 :=
  ⟨rfl, rfl, rfl, rfl, rfl⟩

/-- Witness for C2: the default invocation resolves to anthropic and
makes exactly one Anthropic API call; nim defaults its base URL. -/
theorem C2_witness :
    ((anthropicContexts (cliRun wNoop envKeys args0).1).length = 1
      ∧ openaiCalls (cliRun wNoop envKeys args0).1 = [])
    ∧ resolveBaseUrl Provider.nim none = some nvidiaUrl := by
  have h := C2_provider_dispatch
  exact ⟨(h.2.2.2 wNoop envKeys args0 Provider.anthropic "anth-key".data
    rfl rfl).1 rfl, h.2.2.1⟩

/-- C1: for every string returned by the LLM query, `run_code` passes to
`exec` exactly the suffix of that string starting at the first
occurrence of `"import vtk"` (the whole string when there is no
occurrence), prefixed with the line `"import vtk\n"`; the text before
the first occurrence is dropped and never executed. -/
theorem C1_run_code_exec_suffix (w : World) (code : Str) (verbose : Bool) :
    execSegments (run_code w code verbose).1 = [codeSegment code]
    ∧ (firstOcc importPat code = none → codeSegment code = importLine ++ code)
    ∧ ∀ p, firstOcc importPat code = some p →
        codeSegment code = importLine ++ code.drop p
        ∧ isPre importPat (code.drop p) = true
        ∧ (∀ q, q < p → isPre importPat (code.drop q) = false)
        ∧ code = code.take p ++ code.drop p := by
  refine ⟨(run_code_trace w code verbose).1, ?_, ?_⟩
  · intro h
    unfold codeSegment
    rw [h]
  · intro p hp
    exact ⟨by unfold codeSegment; rw [hp], (firstOcc_some hp).1,
      (firstOcc_some hp).2, (List.take_append_drop p code).symm⟩

set_option maxRecDepth 4000 in
/-- Witness for C1: a response with leading prose is cut at the first
`"import vtk"`. -/
theorem C1_witness :
    codeSegment "hello\nimport vtk\nprint(1)".data
      = importLine ++ "import vtk\nprint(1)".data := by
  have h :=
    ((C1_run_code_exec_suffix wNoop "hello\nimport vtk\nprint(1)".data true).2.2
      6 (by decide)).1
  have hd : ("hello\nimport vtk\nprint(1)".data).drop 6
      = "import vtk\nprint(1)".data := by decide
  rw [h, hd]

/-- C3, counterexample to the claim as stated: a CLI invocation with the
`--rag` flag set and the RAG components available performs no database
lookup at all, because the missing API token makes `parse_args` exit
with status 1 first. -/
theorem C3_counterexample :
    args0rag.rag = true ∧ wDbOk.ragAvailable = true
    ∧ (cliRun wDbOk envNone args0rag).1.all (fun e => !isRagLookup e) = true := by
  decide

/-- C3 (amended): for every CLI invocation that validates its provider
and resolves an API token, a RAG lookup is performed iff the `--rag`
flag is set and the RAG components are available; when the flag is
absent, no lookup occurs and the single prompt context sent is the base
template with the description substituted for `[DESCRIPTION]` (and
nothing else changed: the context is template-prefix ++ description ++
template-suffix). -/
theorem C3_rag_iff (w : World) (env : Env) (args : RawArgs) (p : Provider)
    (tok : Str)
    (hp : parseProvider args.provider = Except.ok p)
    (ht : resolveToken p args.token env = Except.ok tok) :
    ((∃ pr q, Event.ragLookup pr q ∈ (cliRun w env args).1)
      ↔ (args.rag = true ∧ w.ragAvailable = true))
    ∧ (args.rag = false →
        apiContexts (cliRun w env args).1
          = [replaceAll descPat args.input_string CONTEXT]
        ∧ replaceAll descPat args.input_string CONTEXT
          = ctxPre ++ (args.input_string ++ ctxPost)) := by
  rw [cliRun_ok w hp ht]
  have hrt := run_code_trace w
    (providerDispatch w p (resolveBaseUrl p args.base_url) args).2 args.verbose
  constructor
  · constructor
    · rintro ⟨pr, q, hmem⟩
      rw [List.mem_append] at hmem
      rcases hmem with hmem | hmem
      · cases hb : (args.rag && w.ragAvailable) with
        | true =>
          have hb2 := hb
          rw [Bool.and_eq_true] at hb2
          exact hb2
        | false =>
          have := dispatch_no_lookup w p (resolveBaseUrl p args.base_url)
            args hb _ hmem
          simp [isRagLookup] at this
      · have := hrt.2.2.2.2 _ hmem
        simp [isRagLookup] at this
    · rintro ⟨hrag, hav⟩
      exact ⟨_, _, List.mem_append_left _
        (dispatch_lookup w p (resolveBaseUrl p args.base_url) args
          (by simp [hrag, hav]))⟩
  · intro hrag
    have hb : (args.rag && w.ragAvailable) = false := by rw [hrag]; simp
    have hctx : apiContexts (providerDispatch w p
        (resolveBaseUrl p args.base_url) args).1
        = [replaceAll descPat args.input_string CONTEXT] := by
      cases p with
      | anthropic =>
        rw [dispatch_else_a w _ args hb, hrag, anthropic_query_plain]
        rfl
      | openai =>
        rw [dispatch_else_o w _ args (by simp) hb, hrag, openai_query_plain]
        rfl
      | nim =>
        rw [dispatch_else_o w _ args (by simp) hb, hrag, openai_query_plain]
        rfl
    rw [apiContexts_append, hctx, hrt.2.1]
    exact ⟨by simp, context_subst args.input_string⟩

/-- Witness for C3's amended theorem: with a token present, `--rag` with
available components does look up, and no `--rag` sends the plain
substituted template. -/
theorem C3_witness :
    (∃ pr q, Event.ragLookup pr q ∈ (cliRun wDbOk envKeys args0rag).1)
    ∧ apiContexts (cliRun wNoop envKeys args0).1
        = [replaceAll descPat "draw a sphere".data CONTEXT] := by
  constructor
  · exact (C3_rag_iff wDbOk envKeys args0rag Provider.anthropic
      "anth-key".data rfl rfl).1.2 ⟨rfl, rfl⟩
  · exact ((C3_rag_iff wNoop envKeys args0 Provider.anthropic
      "anth-key".data rfl rfl).2 rfl).1

set_option maxRecDepth 10000 in
/-- C4: a successful RAG lookup injects every retrieved code snippet
verbatim into the prompt: the snippets, joined by blank lines, sit
inside the `<vtk_examples>` block of the enhanced context, which also
contains the user's request; and the CLI sends exactly that enhanced
context to the selected provider. -/
theorem C4_snippets_injected :
    (∀ (msg : Str) (snips : List Str),
      (∃ a b, enhancedContext msg (joinSep nlnl snips)
        = a ++ ("<vtk_examples>\n".data
            ++ (joinSep nlnl snips ++ ("\n</vtk_examples>".data ++ b))))
      ∧ (∀ s ∈ snips, s <:+: enhancedContext msg (joinSep nlnl snips))
      ∧ msg <:+: enhancedContext msg (joinSep nlnl snips))
    ∧ (∀ (w : World) (env : Env) (args : RawArgs) (p : Provider) (tok : Str)
        (rs : RagSnippets),
        parseProvider args.provider = Except.ok p →
        resolveToken p args.token env = Except.ok tok →
        (args.rag && w.ragAvailable) = true →
        get_rag_snippets w args.input_string
            ⟨args.collection, args.database, args.top_k⟩ = some rs →
        apiContexts (cliRun w env args).1
          = [enhancedContext args.input_string
              (joinSep nlnl rs.code_snippets)]) := by
  constructor
  · intro msg snips
    have h1 : ehPre = ehPre.take (ehPre.length - 15) ++ "<vtk_examples>\n".data := by
      decide
    have h2 : ehMid = "\n</vtk_examples>".data ++ ehMid.drop 16 := by decide
    refine ⟨⟨ehPre.take (ehPre.length - 15),
        ehMid.drop 16 ++ (msg ++ "\n".data), ?_⟩, fun s hs => ?_, ?_⟩
    · conv_lhs => rw [enhancedContext, h1, h2]
      simp [List.append_assoc]
    · have hj : s <:+: joinSep nlnl snips := joinSep_mem_infix hs
      have hbig : joinSep nlnl snips <:+: enhancedContext msg (joinSep nlnl snips) :=
        ⟨ehPre, ehMid ++ (msg ++ "\n".data), by simp [enhancedContext]⟩
      exact hj.trans hbig
    · exact ⟨ehPre ++ joinSep nlnl snips ++ ehMid, "\n".data,
        by simp [enhancedContext]⟩
  · intro w env args p tok rs hp ht hb hs
    rw [cliRun_ok w hp ht]
    have hrt := run_code_trace w
      (providerDispatch w p (resolveBaseUrl p args.base_url) args).2 args.verbose
    rw [apiContexts_append, hrt.2.1]
    cases p with
    | anthropic => rw [dispatch_hit_a w _ args rs hb hs]; rfl
    | openai => rw [dispatch_hit_o w _ args rs (by simp) hb hs]; rfl
    | nim => rw [dispatch_hit_o w _ args rs (by simp) hb hs]; rfl

/-- Witness for C4: a concrete snippet is an infix of the enhanced
context, and the CLI with a hitting database sends the enhanced
context. -/
theorem C4_witness :
    "s1".data <:+: enhancedContext "msg".data (joinSep nlnl ["s1".data, "s2".data])
    ∧ apiContexts (cliRun wDbOk envKeys args0rag).1
        = [enhancedContext "draw a sphere".data
            (joinSep nlnl ["s = vtk.vtkSphereSource()".data])] := by
  constructor
  · exact (C4_snippets_injected.1 "msg".data ["s1".data, "s2".data]).2.1
      "s1".data (by simp)
  · exact C4_snippets_injected.2 wDbOk envKeys args0rag Provider.anthropic
      "anth-key".data ⟨["s = vtk.vtkSphereSource()".data], [], []⟩ rfl rfl rfl rfl

/-- C7: `substitute_variables` first replaces each conditional block
`{{#if v}}B{{/if}}` by `B` when `v` is bound in the default-augmented
variable map and truthy, and by the empty string otherwise; then it
replaces every placeholder `{{name}}` by the string value of its
variable; the defaults `VTK_VERSION` and `PYTHON_VERSION` are always
bound and caller-supplied variables of the same name override them.
The phase semantics are stated over well-formed templates (`CSegWF`,
`PhaseWF`: brace-free literals/bodies/values, word-character names). -/
theorem C7_substitute_variables :
    (∀ (vtkVer content : Str) (vm : VarMap),
      substitute_variables vtkVer content vm
        = applyVariables
            (handleConditionals (augmentVars vtkVer vm) content)
            (augmentVars vtkVer vm))
    ∧ (∀ (vtkVer : Str) (vm : VarMap),
        List.lookup "VTK_VERSION".data (augmentVars vtkVer vm)
          = some ((List.lookup "VTK_VERSION".data vm).getD vtkVer)
        ∧ List.lookup "PYTHON_VERSION".data (augmentVars vtkVer vm)
          = some ((List.lookup "PYTHON_VERSION".data vm).getD yamlPythonVersion))
    ∧ (∀ (vars : VarMap) (segs : List CSeg), segs.all CSegWF = true →
        handleConditionals vars (renderCTemplate segs)
          = (segs.map (resolveCSeg vars)).foldr (· ++ ·) [])
    ∧ (∀ (am : VarMap) (segs : List PSeg), PhaseWF am segs = true →
        applyVariables (renderPTemplate [] segs) am = renderPTemplate am segs) :=
  ⟨fun _ _ _ => rfl, fun vt vm => augmentVars_defaults vt vm,
   handleConditionals_template, applyVariables_template⟩

/-- Witness for C7: a concrete conditional template with a truthy
variable keeps its body, and a concrete placeholder template gets its
variable substituted. -/
theorem C7_witness :
    handleConditionals [("flag".data, "1".data)]
        (renderCTemplate [CSeg.lit "A ".data,
          CSeg.cond "flag".data "yes".data, CSeg.lit " B".data])
      = "A yes B".data
    ∧ applyVariables
        (renderPTemplate [] [PSeg.lit "x=".data, PSeg.ph "N".data])
        [("N".data, "7".data)]
      = "x=7".data := by
  constructor
  · rw [C7_substitute_variables.2.2.1 _ _ (by decide)]
    decide
  · rw [C7_substitute_variables.2.2.2 _ _ (by decide)]
    decide

/-- C8: without `--rag` the single prompt context sent still contains
the literal `[LIST_VTK_CLASSES]` placeholder; the placeholder is
replaced by the class list of `data/examples/index.json` exactly in the
fallback branches: RAG enabled but components unavailable, or RAG
enabled with both lookups failing. -/
theorem C8_list_placeholder (w : World) (env : Env) (args : RawArgs)
    (p : Provider) (tok : Str)
    (hp : parseProvider args.provider = Except.ok p)
    (ht : resolveToken p args.token env = Except.ok tok) :
    (args.rag = false →
      apiContexts (cliRun w env args).1
        = [replaceAll descPat args.input_string CONTEXT]
      ∧ hasOccur listPat (replaceAll descPat args.input_string CONTEXT) = true)
    ∧ (args.rag = true → w.ragAvailable = false →
      apiContexts (cliRun w env args).1
        = [replaceAll listPat (classList w)
            (replaceAll descPat args.input_string CONTEXT)])
    ∧ (args.rag = true → w.ragAvailable = true →
      get_rag_snippets w args.input_string
          ⟨args.collection, args.database, args.top_k⟩ = none →
      get_rag_snippets w args.input_string defaultRagParams = none →
      apiContexts (cliRun w env args).1
        = [replaceAll listPat (classList w)
            (replaceAll descPat args.input_string CONTEXT)]) := by
  rw [cliRun_ok w hp ht]
  have hrt := run_code_trace w
    (providerDispatch w p (resolveBaseUrl p args.base_url) args).2 args.verbose
  refine ⟨fun hrag => ?_, fun hrag hav => ?_, fun hrag hav hs hs2 => ?_⟩
  · have hb : (args.rag && w.ragAvailable) = false := by rw [hrag]; simp
    have hctx : apiContexts (providerDispatch w p
        (resolveBaseUrl p args.base_url) args).1
        = [replaceAll descPat args.input_string CONTEXT] := by
      cases p with
      | anthropic => rw [dispatch_else_a w _ args hb, hrag, anthropic_query_plain]; rfl
      | openai =>
        rw [dispatch_else_o w _ args (by simp) hb, hrag, openai_query_plain]; rfl
      | nim =>
        rw [dispatch_else_o w _ args (by simp) hb, hrag, openai_query_plain]; rfl
    rw [apiContexts_append, hctx, hrt.2.1]
    exact ⟨by simp, listPat_in_context args.input_string⟩
  · have hb : (args.rag && w.ragAvailable) = false := by rw [hav]; simp
    rw [apiContexts_append, hrt.2.1]
    cases p with
    | anthropic =>
      rw [dispatch_else_a w _ args hb, hrag,
        anthropic_query_noavail w args.input_string hav]
      rfl
    | openai =>
      rw [dispatch_else_o w _ args (by simp) hb, hrag,
        openai_query_noavail w args.input_string _ hav]
      rfl
    | nim =>
      rw [dispatch_else_o w _ args (by simp) hb, hrag,
        openai_query_noavail w args.input_string _ hav]
      rfl
  · have hb : (args.rag && w.ragAvailable) = true := by rw [hrag, hav]; rfl
    rw [apiContexts_append, hrt.2.1]
    cases p with
    | anthropic =>
      rw [dispatch_miss_a w _ args hb hs, hrag,
        anthropic_query_miss w args.input_string hav hs2]
      rfl
    | openai =>
      rw [dispatch_miss_o w _ args (by simp) hb hs, hrag,
        openai_query_miss w args.input_string _ hav hs2]
      rfl
    | nim =>
      rw [dispatch_miss_o w _ args (by simp) hb hs, hrag,
        openai_query_miss w args.input_string _ hav hs2]
      rfl

/-- Witness for C8: the no-RAG invocation keeps the placeholder; the
RAG invocation without components replaces it. -/
theorem C8_witness :
    (apiContexts (cliRun wNoop envKeys args0).1
      = [replaceAll descPat "draw a sphere".data CONTEXT]
     ∧ hasOccur listPat (replaceAll descPat "draw a sphere".data CONTEXT) = true)
    ∧ apiContexts (cliRun wNoop envKeys args0rag).1
      = [replaceAll listPat (classList wNoop)
          (replaceAll descPat "draw a sphere".data CONTEXT)] := by
  constructor
  · exact (C8_list_placeholder wNoop envKeys args0 Provider.anthropic
      "anth-key".data rfl rfl).1 rfl
  · exact (C8_list_placeholder wNoop envKeys args0rag Provider.anthropic
      "anth-key".data rfl rfl).2.1 rfl rfl

/-- C5: `get_rag_snippets` is a thin wrapper over the vector-database
library: on success it copies the `code_documents`, `text_documents` and
`code_metadata` fields of the library's query result into the
`code_snippets`, `text_snippets` and `code_metadata` entries of its
result; any exception from initialization or the query yields `none`
instead of propagating. -/
theorem C5_get_rag_snippets_wrapper (w : World) (q : Str) (pr : RagParams) :
    (∀ e, w.dbInit pr.database = Except.error e →
      get_rag_snippets w q pr = none)
    ∧ (∀ client, w.dbInit pr.database = Except.ok client →
        (∀ e, w.dbQuery client q pr.collection pr.top_k = Except.error e →
          get_rag_snippets w q pr = none)
        ∧ (∀ r, w.dbQuery client q pr.collection pr.top_k = Except.ok r →
          get_rag_snippets w q pr
            = some ⟨r.code_documents, r.text_documents, r.code_metadata⟩)) := by
  refine ⟨fun e he => ?_, fun client hc => ⟨fun e he => ?_, fun r hr => ?_⟩⟩ <;>
    unfold get_rag_snippets
  · rw [he]
    rfl
  · rw [hc]
    simp only [Except.bind, he]
  · rw [hc]
    simp only [Except.bind, hr]

/-- Witness for C5: a succeeding and a failing database. -/
theorem C5_witness :
    get_rag_snippets wDbOk "q".data defaultRagParams
      = some ⟨["s = vtk.vtkSphereSource()".data], [], []⟩
    ∧ get_rag_snippets wDbErr "q".data defaultRagParams = none := by
  constructor
  · exact ((C5_get_rag_snippets_wrapper wDbOk "q".data defaultRagParams).2
      0 rfl).2 _ rfl
  · exact (C5_get_rag_snippets_wrapper wDbErr "q".data defaultRagParams).1 _ rfl

/-- C6: `_execute_with_renderer` executes the generated code against the
live scene graph: the execution globals bind `vtk` to the vtk module and
`renderer` to the application's renderer, all view props are removed
from that renderer immediately before the `exec`, and the code is
prefixed with `"import vtk\n"` only when `"import vtk"` does not occur
in it (when it does occur, the executed string is exactly the suffix
from its first occurrence). -/
theorem C6_execute_with_renderer
    (execOut : Str → List (Str × PyVal) → Except PyErr Unit)
    (renderResult : Except PyErr Unit) (code : Str) :
    (execute_with_renderer execOut renderResult code).1.take 2
        = [UiEvent.removeAllViewProps,
           UiEvent.uiExec (uiCodeSegment code) execGlobals]
    ∧ List.lookup "renderer".data execGlobals = some PyVal.appRenderer
    ∧ List.lookup "vtk".data execGlobals = some PyVal.vtkModule
    ∧ (hasOccur importPat code = false →
        uiCodeSegment code = importLine ++ code)
    ∧ (∀ p, firstOcc importPat code = some p →
        uiCodeSegment code = code.drop p) := by
  refine ⟨?_, by decide, by decide, fun h => ?_, fun p hp => ?_⟩
  · unfold execute_with_renderer
    cases hex : execOut (uiCodeSegment code) execGlobals with
    | ok u => cases renderResult <;> simp [hex]
    | error e => simp [hex]
  · have hfo : firstOcc importPat code = none := by
      unfold hasOccur at h
      cases hfo : firstOcc importPat code with
      | none => rfl
      | some k => rw [hfo] at h; simp at h
    simp [uiCodeSegment, hfo, h]
  · have hocc : hasOccur importPat (code.drop p) = true := by
      apply hasOccur_of_isPre_drop (j := 0)
      rw [List.drop_zero]
      exact (firstOcc_some hp).1
    simp [uiCodeSegment, hp, hocc]

/-- Witness for C6: code without `"import vtk"` gets the prefix and the
trace starts with the prop removal followed by the `exec`. -/
theorem C6_witness :
    uiCodeSegment "foo".data = importLine ++ "foo".data
    ∧ (execute_with_renderer (fun _ _ => Except.ok ()) (Except.ok ())
        "foo".data).1.take 2
      = [UiEvent.removeAllViewProps,
         UiEvent.uiExec (uiCodeSegment "foo".data) execGlobals] := by
  have h := C6_execute_with_renderer (fun _ _ => Except.ok ()) (Except.ok ())
    "foo".data
  exact ⟨h.2.2.2.1 (by decide), h.1⟩

/-- C9: `run_code` never propagates an exception: whatever `exec` does,
the propagated-exception slot is `none`; on an exception the error
message is printed, and the code segment is printed as well (in the
error branch when not verbose, upfront when verbose). -/
theorem C9_run_code_no_propagate (w : World) (code : Str) (verbose : Bool) :
    (run_code w code verbose).2 = none
    ∧ ∀ e, w.execResult (codeSegment code) = Except.error e →
        Event.printEv (runCodeErr e) ∈ (run_code w code verbose).1
        ∧ Event.printEv (codeSegment code) ∈ (run_code w code verbose).1 := by
  refine ⟨?_, fun e he => ?_⟩
  · cases hex : w.execResult (codeSegment code) <;> simp [run_code, hex]
  · simp only [run_code, he]
    cases verbose <;> simp

/-- Witness for C9: a raising `exec` still yields `none` and prints. -/
theorem C9_witness :
    (run_code wBoom "x".data false).2 = none
    ∧ Event.printEv (runCodeErr "boom".data) ∈ (run_code wBoom "x".data false).1 := by
  have h := C9_run_code_no_propagate wBoom "x".data false
  exact ⟨h.1, (h.2 "boom".data rfl).1⟩

/-- C10: when no `--token` is given and the provider's environment
variable is unset, `parse_args` prints an error and exits with status 1;
the whole trace is that single print, so no API call is made. -/
theorem C10_token_guard (w : World) (env : Env) (args : RawArgs) (p : Provider)
    (hp : parseProvider args.provider = Except.ok p)
    (ht : args.token = none)
    (he : (match p with
           | Provider.anthropic => env.anthropicApiKey
           | _ => env.openaiApiKey) = none) :
    cliRun w env args = ([Event.printEv (tokenErrMsg p)], Except.error 1) := by
  simp only [cliRun, hp, resolveToken, ht, he]

/-- Witness for C10: default provider, no token anywhere. -/
theorem C10_witness :
    cliRun wNoop envNone args0
      = ([Event.printEv (tokenErrMsg Provider.anthropic)], Except.error 1) :=
  C10_token_guard wNoop envNone args0 Provider.anthropic rfl rfl rfl

end VtkPrompt
